import Mathlib

/-!
Verification of the go-mem per-card game engine, scoring engine and session
orchestrator against its natural-language specification.

The Go sources are shallowly embedded: Go runes become Char, Go strings and
rune slices become List Char, Go int becomes Int (or Nat for values that are
only ever non-negative indices), and the in-place mutation of the looplab/fsm
callback chain becomes explicit state passing, with each FSM entry callback a
function on the state record.  External effects are made explicit parameters:
the score file behind the ScoreStorage interface is a record holding the
stored entries plus a count of SaveAll calls, rand.Shuffle becomes an
arbitrary reordering function passed in, sha256 hashing and time.Now become
explicit arguments.  Byte indexing in the Go code coincides with rune
indexing for ASCII inputs and is modelled as rune indexing; strings.ToLower
and strings.EqualFold are modelled by the same per-character lowering
function, which agrees with Go on ASCII.
-/

namespace GoMem

/-! ## Scoring data model (internal/scoring) -/

/-- ScoreHistoryEntry from score_history.go: one persisted score record. -/
structure ScoreHistoryEntry where
  Hash : String
  Score : Int
  Timestamp : String
  Title : String
deriving Repr, DecidableEq

/-- ScoreHistory from score_history.go. -/
structure ScoreHistory where
  Entries : List ScoreHistoryEntry
  HighScoreEntry : Option ScoreHistoryEntry
  CurrentScore : Option ScoreHistoryEntry
  Attempts : Nat
deriving Repr, DecidableEq

/-- Model of the ScoreStorage interface: the stored ledger plus a count of
SaveAll calls, so that persistence writes are observable. -/
structure ScoreStorage where
  Entries : List ScoreHistoryEntry
  Saves : Nat
deriving Repr, DecidableEq

/-- LoadAll returns the stored entries (the model never fails). -/
def ScoreStorage.LoadAll (st : ScoreStorage) : List ScoreHistoryEntry :=
  st.Entries

/-- SaveAll overwrites the stored entries and records that a write happened. -/
def ScoreStorage.SaveAll (st : ScoreStorage) (entries : List ScoreHistoryEntry) :
    ScoreStorage :=
  { Entries := entries, Saves := st.Saves + 1 }

/-- Comparison used by every sort in the scoring package: sort.Slice with
less i j given by Score i greater than Score j, i.e. descending score. -/
def scoreGe (a b : ScoreHistoryEntry) : Prop := b.Score ≤ a.Score

instance : DecidableRel scoreGe := fun a b =>
  inferInstanceAs (Decidable (b.Score ≤ a.Score))

instance : IsTotal ScoreHistoryEntry scoreGe :=
  ⟨fun a b => (le_total b.Score a.Score).elim Or.inl Or.inr⟩

instance : IsTrans ScoreHistoryEntry scoreGe :=
  ⟨fun _ _ _ h h2 => le_trans h2 h⟩

/-- Deterministic model of sort.Slice with the descending-score comparator
(sort.Slice leaves the order of equal scores unspecified; we fix one). -/
def sortByScoreDesc (l : List ScoreHistoryEntry) : List ScoreHistoryEntry :=
  List.insertionSort scoreGe l

/-- getScoreTable from scoring.go: the fixed score table. -/
def getScoreTable : List (String × Int) :=
  [("baseScore", 10), ("rightLetter", 25), ("wrongLetter", -50),
   ("hint", -100), ("wordBonus", 250), ("messageBonus", 1000)]

/-- Go map lookup with the zero value for missing keys. -/
def tableGet (t : List (String × Int)) (k : String) : Int :=
  ((t.find? (fun p => p.1 == k)).map Prod.snd).getD 0

/-- Scoring from scoring.go. -/
structure Scoring where
  CurrentScore : Int
  HintCount : Nat
  ErrorCount : Nat
  PotentialScore : Int
  storage : ScoreStorage
  history : ScoreHistory
  scoreTable : List (String × Int)
  textHash : String
deriving Repr, DecidableEq

/-- ScoreEvent from scoring.go: bump the hint or error counter for those two
events, add the table value of the event (zero when absent) to the current
score, and refresh the in-progress ledger entry. -/
def Scoring.ScoreEvent (s : Scoring) (event : String) : Scoring :=
  let s :=
    if event == "hint" then { s with HintCount := s.HintCount + 1 }
    else if event == "wrongLetter" then { s with ErrorCount := s.ErrorCount + 1 }
    else s
  let s := { s with CurrentScore := s.CurrentScore + tableGet s.scoreTable event }
  match s.history.CurrentScore with
  | some e =>
      { s with history := { s.history with CurrentScore := some { e with Score := s.CurrentScore } } }
  | none => s

/-- AddTimeBonus from scoring.go. -/
def Scoring.AddTimeBonus (s : Scoring) (seconds : Int) : Scoring :=
  let s := { s with CurrentScore := s.CurrentScore + seconds * 10 }
  match s.history.CurrentScore with
  | some e =>
      { s with history := { s.history with CurrentScore := some { e with Score := s.CurrentScore } } }
  | none => s

/-- SaveEntries from scoring.go: when an in-progress entry exists, reload the
ledger, drop every entry for this text, append the in-progress entry and the
previously loaded entries for this text (skipping a timestamp duplicate of
the in-progress entry), and write the result back. -/
def Scoring.SaveEntries (s : Scoring) : Scoring :=
  match s.history.CurrentScore with
  | none => s
  | some cur =>
      let allEntries := s.storage.LoadAll
      let updatedEntries := allEntries.filter (fun e => e.Hash != s.textHash)
      let updatedEntries := updatedEntries ++ [cur] ++
        s.history.Entries.filter (fun e => e.Timestamp != cur.Timestamp)
      { s with storage := s.storage.SaveAll updatedEntries }

/-- InitScoring from scoring.go.  hashFn stands for the sha256 content hash
and now for the RFC3339 timestamp of time.Now; storage reads never fail in
the model, so no error case remains. -/
def InitScoring (secretMessage : List Char) (title : String)
    (storage : ScoreStorage) (hashFn : List Char → String) (now : String) :
    Scoring :=
  let textHash := hashFn secretMessage
  let table := getScoreTable
  let allEntries := storage.LoadAll
  let filteredEntries := allEntries.filter (fun e => e.Hash == textHash)
  let sorted := sortByScoreDesc filteredEntries
  { CurrentScore := 0
    HintCount := 0
    ErrorCount := 0
    PotentialScore := tableGet table "baseScore" * secretMessage.length
    storage := storage
    scoreTable := table
    textHash := textHash
    history :=
      { Entries := sorted
        Attempts := sorted.length
        HighScoreEntry := sorted.head?
        CurrentScore := some { Hash := textHash, Score := 0, Timestamp := now, Title := title } } }

/-- GetNScoreEntries as in the current score_history.go (the variant whose
behaviour the package test TestGetNScoreEntries_IncludesCurrent asserts):
copy the historical entries, append the in-progress entry when present, sort
by descending score, and truncate to n. -/
def ScoreHistory.GetNScoreEntries (sh : ScoreHistory) (n : Nat) :
    List ScoreHistoryEntry :=
  let entries := sh.Entries
  let entries :=
    match sh.CurrentScore with
    | some cur => entries ++ [cur]
    | none => entries
  let entries := sortByScoreDesc entries
  if entries.length < n then entries else entries.take n

/-- The spec side of claim C5, written from the specification words alone:
the merged list of all historical entries plus the current in-progress
entry, sorted by score descending, truncated to length n. -/
def topNMergedSpec (sh : ScoreHistory) (n : Nat) : List ScoreHistoryEntry :=
  (sortByScoreDesc (sh.Entries ++ sh.CurrentScore.toList)).take n

/-- GotHighScore from score_history.go. -/
def ScoreHistory.GotHighScore (sh : ScoreHistory) : Bool :=
  match sh.HighScoreEntry, sh.CurrentScore with
  | some hi, some cur => cur.Score ≥ hi.Score
  | _, _ => true

/-! ## Game state (internal/state) -/

/-- GameOptions from state.go. -/
structure GameOptions where
  TimerLimit : Int
  FirstLetter : Bool
  NRandom : Int
  NWords : Int
deriving Repr, DecidableEq

/-- State from state.go.  The bubbletea textarea model is represented by its
Value, which is the only part of it the engine reads (GotCorrectMessage) or
writes (SetValue); the fsm.FSM field is dropped because every reachable
input-processing cascade runs to completion back to the idle state, which the
step functions below realise directly. -/
structure State where
  Textarea : List Char
  Mask : List Char
  Secret : List Char
  Pos : Nat
  Win : Bool
  Loss : Bool
  Revealed : Bool
  WrongLetter : Bool
  Score : Scoring
  CardWidth : Nat
  BracketedPositions : List Nat
  CurrentChar : List Char
  TimerEnabled : Bool
  TimeLimit : Int
  TimeRemaining : Int
  Options : GameOptions
deriving Repr, DecidableEq

/-- isPunctuation from state_helpers.go. -/
def isPunctuation (r : Char) : Bool :=
  [',', '.', '!', '?', ';', ':', '\n'].contains r

/-- IsExitRequested from state_helpers.go. -/
def IsExitRequested (ch : List Char) : Bool := ch == "ctrl+c".toList

/-- IsRevealRequested from state_helpers.go. -/
def IsRevealRequested (ch : List Char) : Bool := ch == "ctrl+r".toList

/-- ShouldIgnore from state_helpers.go (the receiver is unused in the Go
code).  Go reads the first byte of the string; for the ASCII inputs in scope
that is the first character. -/
def ShouldIgnore (ch : List Char) : Bool :=
  match ch with
  | [] => false
  | c :: _ => (ch == [' ']) || (isPunctuation c && ch != ['?'])

/-- Model of strings.ToLower (per-character lowering; agrees on ASCII). -/
def lowerStr (ch : List Char) : List Char := ch.map Char.toLower

/-- Model of strings.EqualFold (case folding via lowering; agrees on ASCII). -/
def eqFold (a b : List Char) : Bool := lowerStr a == lowerStr b

/-- IsAtEnd from state_helpers.go. -/
def State.IsAtEnd (s : State) : Bool := s.Pos == s.Secret.length

/-- IsCorrectLetter from state_helpers.go. -/
def State.IsCorrectLetter (s : State) (ch : List Char) : Bool :=
  if s.Secret.length ≤ s.Pos then false
  else lowerStr ch == lowerStr [s.Secret.getD s.Pos ' ']

/-- IsIncorrectLetter from state_helpers.go. -/
def State.IsIncorrectLetter (s : State) (ch : List Char) : Bool :=
  if s.Secret.length ≤ s.Pos then true
  else lowerStr ch != lowerStr [s.Secret.getD s.Pos ' ']

/-- GotCompletedWord from state_helpers.go: the character at the current
cursor position is a space or punctuation (and the cursor is not at the
end). -/
def State.GotCompletedWord (s : State) : Bool :=
  !s.IsAtEnd && (s.Secret.getD s.Pos ' ' == ' ' || isPunctuation (s.Secret.getD s.Pos ' '))

/-- GotCorrectMessage from state_helpers.go. -/
def State.GotCorrectMessage (s : State) : Bool := s.Secret == s.Textarea

/-- IsGameOver from state_helpers.go. -/
def State.IsGameOver (s : State) : Bool :=
  s.Secret.length ≤ s.Pos || s.Score.CurrentScore < 0

/-- LostGame from state_helpers.go. -/
def State.LostGame (s : State) : Bool :=
  s.Score.CurrentScore < 0 || (s.IsGameOver && s.WrongLetter)

/-- One Go assignment mask[i] = secret[i] (all call sites have i within
range, so the getD default is never read). -/
def revealAt (secret mask : List Char) (i : Nat) : List Char :=
  mask.set i (secret.getD i '_')

/-- Loop condition of SkipRevealed from state_helpers.go. -/
def skipCond (s : State) : Bool :=
  s.Pos < s.Secret.length &&
    (ShouldIgnore [s.Secret.getD s.Pos ' '] || s.BracketedPositions.contains s.Pos ||
      s.Mask.getD s.Pos '_' != '_')

/-- One iteration of the SkipRevealed loop body. -/
def skipBody (s : State) : State :=
  { s with
    Mask := if s.Mask.getD s.Pos '_' == '_' then revealAt s.Secret s.Mask s.Pos else s.Mask
    Pos := s.Pos + 1 }

/-- Fuel-indexed SkipRevealed loop; the loop advances Pos by one per
iteration and stops once Pos reaches the secret length, so fuel equal to
that distance runs the loop to its natural exit. -/
def skipRevealedFuel : Nat → State → State
  | 0, s => s
  | fuel + 1, s => if skipCond s then skipRevealedFuel fuel (skipBody s) else s

/-- SkipRevealed from state_helpers.go. -/
def State.SkipRevealed (s : State) : State :=
  skipRevealedFuel (s.Secret.length - s.Pos) s

/-! The FSM entry callbacks of state.go.  Each function performs the side
effects of one callback and then continues with the callback of the state
the emitted event transitions to, exactly following getStateTransitions. -/

/-- enter_endState: persist the attempt via the Scoring engine. -/
def State.endState (s : State) : State :=
  { s with Score := s.Score.SaveEntries }

/-- Shorthand for the Go call s.Score.ScoreEvent(event). -/
def State.scoreEvent (s : State) (event : String) : State :=
  { s with Score := s.Score.ScoreEvent event }

/-- enter_evaluating: declare a win or a loss when the game is over (adding
the message bonus on the win side), re-check the score, else return to
idle. -/
def State.evaluating (s : State) : State :=
  if s.IsGameOver then
    (if s.LostGame then { s with Loss := true }
     else ({ s with Win := true }).scoreEvent "messageBonus").endState
  else if s.Score.CurrentScore < 0 then ({ s with Loss := true }).endState
  else s

/-- enter_noMatch, then updateScore and evaluating: flag the wrong letter and
apply the wrong-letter score event (this happens on every mismatch, also
when the flag is already set). -/
def State.noMatch (s : State) : State :=
  let s := { s with WrongLetter := true }
  let s := s.scoreEvent "wrongLetter"
  let s := { s with Textarea := s.Mask }
  s.evaluating

/-- enter_gotMatch, then either the early win exit or updateMask, advancing
and evaluating. -/
def State.gotMatch (s : State) : State :=
  let s := { s with Mask := revealAt s.Secret s.Mask s.Pos }
  let s := s.scoreEvent "rightLetter"
  let s := if s.GotCompletedWord then s.scoreEvent "wordBonus" else s
  if s.Mask == s.Secret then
    let s := { s with Win := true }
    let s := s.scoreEvent "messageBonus"
    let s := if s.TimerEnabled then { s with Score := s.Score.AddTimeBonus s.TimeRemaining } else s
    let s := { s with Textarea := s.Mask }
    s.endState
  else
    let s := { s with Textarea := s.Mask }
    let s := { s with Pos := s.Pos + 1 }
    s.evaluating

/-- enter_checkCorrectness.  The final Go branch emits an ignore event that
is invalid from this FSM state, so nothing happens there; it is unreachable
anyway because IsIncorrectLetter is the exact negation of IsCorrectLetter. -/
def State.checkCorrectness (s : State) : State :=
  if s.WrongLetter then
    if s.IsCorrectLetter s.CurrentChar then ({ s with WrongLetter := false }).gotMatch
    else s.noMatch
  else
    if s.IsCorrectLetter s.CurrentChar then s.gotMatch
    else if s.IsIncorrectLetter s.CurrentChar then s.noMatch
    else s

/-- The tempPos scan of enter_revealNextChar (fuel as in SkipRevealed). -/
def scanHiddenFuel (secret mask : List Char) : Nat → Nat → Nat
  | 0, tempPos => tempPos
  | fuel + 1, tempPos =>
    if tempPos < secret.length &&
        (ShouldIgnore [secret.getD tempPos ' '] || mask.getD tempPos '_' != '_') then
      scanHiddenFuel secret mask fuel (tempPos + 1)
    else tempPos

/-- enter_revealNextChar, then updateMask, advancing and evaluating: reveal
the next hidden character (scoring the hint) and advance the cursor. -/
def State.revealNextChar (s : State) : State :=
  let tempPos := scanHiddenFuel s.Secret s.Mask (s.Secret.length - s.Pos) s.Pos
  let s :=
    if tempPos < s.Secret.length && s.Mask.getD tempPos '_' == '_' then
      ({ s with Mask := revealAt s.Secret s.Mask tempPos }).scoreEvent "hint"
    else s
  let s := { s with Textarea := s.Mask }
  let s := { s with Pos := s.Pos + 1 }
  s.evaluating

/-- The backward type-through scan of enter_processChar: from index i - 1
downward while the mask is revealed and the secret character is not a
word boundary, looking for a case-insensitive match with the input. -/
def typeThroughScan (secret mask ch : List Char) : Nat → Bool
  | 0 => false
  | i + 1 =>
    if mask.getD i '_' == '_' then false
    else if ShouldIgnore [secret.getD i ' '] then false
    else if eqFold [secret.getD i ' '] ch then true
    else typeThroughScan secret mask ch i

/-- enter_processChar: skip revealed positions, refresh the textarea, handle
the end-of-secret case, then dispatch on the input with the correct letter
taking priority over type-through, ignorable input, and the hint command. -/
def State.processChar (s : State) : State :=
  let s := s.SkipRevealed
  let s := { s with Textarea := s.Mask }
  if s.Secret.length ≤ s.Pos then
    if s.Mask == s.Secret then
      let s := { s with Win := true }
      let s := s.scoreEvent "messageBonus"
      let s := if s.TimerEnabled then { s with Score := s.Score.AddTimeBonus s.TimeRemaining } else s
      s.endState
    else s.evaluating
  else if s.IsCorrectLetter s.CurrentChar then s.checkCorrectness
  else if typeThroughScan s.Secret s.Mask s.CurrentChar s.Pos then s.evaluating
  else if ShouldIgnore s.CurrentChar then s.evaluating
  else if s.CurrentChar == ['?'] then s.revealNextChar
  else s.checkCorrectness

/-- enter_revealingAll: fill the mask with the secret, mark the loss and the
reveal, and end. -/
def State.revealingAll (s : State) : State :=
  let s := { s with Mask := s.Secret }
  let s := { s with Textarea := s.Mask }
  let s := { s with Loss := true, Revealed := true }
  s.endState

/-- enter_checkGameState: record the input, then check already-won, quit
request, negative score and reveal request before processing the
character. -/
def State.checkGameState (s : State) (ch : List Char) : State :=
  let s := { s with CurrentChar := ch }
  if s.GotCorrectMessage then ({ s with Win := true }).endState
  else if IsExitRequested s.CurrentChar then ({ s with Loss := true }).endState
  else if s.Score.CurrentScore < 0 then ({ s with Loss := true }).endState
  else if IsRevealRequested s.CurrentChar then s.revealingAll
  else s.processChar

/-- enter_timeCheck: decrement the remaining time and end with a loss when
it reaches zero. -/
def State.timeCheck (s : State) : State :=
  let s := { s with TimeRemaining := s.TimeRemaining - 1 }
  if s.TimeRemaining ≤ 0 then ({ s with Loss := true }).endState
  else s

/-! ## Game wrapper (internal/game/game.go) -/

/-- Game from game.go. -/
structure Game where
  State : State
deriving Repr, DecidableEq

/-- HandleTick from game.go. -/
def Game.HandleTick (g : Game) : Game :=
  if g.State.Win || g.State.Loss || !g.State.TimerEnabled then g
  else ⟨g.State.timeCheck⟩

/-- HandleKeyPress from game.go. -/
def Game.HandleKeyPress (g : Game) (ch : List Char) : Game :=
  if g.State.Win || g.State.Loss then g
  else ⟨g.State.checkGameState ch⟩

/-! ## Initialization (SetBracketedPositions, InitMask, game modes) -/

/-- Index of the first closing bracket at or after j. -/
def findCloseIdx (l : List Char) (j : Nat) : Option Nat :=
  match (l.drop j).findIdx? (fun c => c == ']') with
  | some k => some (j + k)
  | none => none

/-- The content spans (start, end in original coordinates) of the lazy regex
bracket matches of SetBracketedPositions: leftmost opening bracket paired
with the nearest closing bracket after it, resuming after that match.  The
scan index rises by at least one per step, so fuel greater than the length
runs the scan to its natural exit. -/
def bracketSpansFuel (l : List Char) : Nat → Nat → List (Nat × Nat)
  | 0, _ => []
  | fuel + 1, i =>
    if i < l.length then
      if l.getD i ' ' == '[' then
        match findCloseIdx l (i + 1) with
        | some j => (i + 1, j) :: bracketSpansFuel l fuel (j + 1)
        | none => []
      else bracketSpansFuel l fuel (i + 1)
    else []

/-- The bracket content spans of a text. -/
def bracketSpans (l : List Char) : List (Nat × Nat) :=
  bracketSpansFuel l (l.length + 1) 0

/-- The pre-revealed positions computed by SetBracketedPositions: for each
content character, its original index minus the number of bracket characters
before the start of its match. -/
def bracketedPositionsOf (l : List Char) : List Nat :=
  (bracketSpans l).flatMap fun sp =>
    let previousBrackets :=
      ((l.take sp.1).filter (fun c => c == '[' || c == ']')).length
    (List.range' sp.1 (sp.2 - sp.1)).map (fun i => i - previousBrackets)

/-- The secret after the regex replacement of every bracketed span by its
content: the two delimiters of each match are removed. -/
def stripBrackets (l : List Char) : List Char :=
  let delims := (bracketSpans l).flatMap (fun sp => [sp.1 - 1, sp.2])
  (l.enum.filter (fun p => !(delims.contains p.1))).map Prod.snd

/-- SetBracketedPositions from state_helpers.go. -/
def State.SetBracketedPositions (s : State) : State :=
  { s with
    BracketedPositions := bracketedPositionsOf s.Secret
    Secret := stripBrackets s.Secret }

/-- InitMask from state_helpers.go. -/
def State.InitMask (s : State) : State :=
  { s with
    Mask := s.Secret.enum.map fun p =>
      if ShouldIgnore [p.2] || s.BracketedPositions.contains p.1 then p.2 else '_' }

/-- Model of unicode.IsLetter or unicode.IsDigit (agrees on ASCII). -/
def isAlnum (c : Char) : Bool := c.isAlpha || c.isDigit

/-- The fold of RevealFirstLetters over the secret, carrying the index and
the inside-a-word flag. -/
def revealFirstAux (secret : List Char) : List Char → List Char → Nat → Bool → List Char
  | [], mask, _, _ => mask
  | c :: rest, mask, i, inWord =>
    if isAlnum c then
      if inWord then revealFirstAux secret rest mask (i + 1) true
      else revealFirstAux secret rest (revealAt secret mask i) (i + 1) true
    else revealFirstAux secret rest mask (i + 1) false

/-- RevealFirstLetters from state.go. -/
def State.RevealFirstLetters (s : State) : State :=
  { s with Mask := revealFirstAux s.Secret s.Secret s.Mask 0 false }

/-- Reveal the secret characters at the listed indices, in order. -/
def revealIdxs (secret mask : List Char) (idxs : List Nat) : List Char :=
  idxs.foldl (revealAt secret) mask

/-- RevealRandomLetters from state.go, with rand.Shuffle replaced by an
arbitrary reordering function perm. -/
def State.RevealRandomLetters (s : State) (perm : List Nat → List Nat) (n : Int) : State :=
  let candidates :=
    (s.Secret.enum.filter fun p => s.Mask.getD p.1 '_' == '_' && isAlnum p.2).map Prod.fst
  let shuffled := perm candidates
  let count : Int := if (candidates.length : Int) < n then candidates.length else n
  { s with Mask := revealIdxs s.Secret s.Mask (shuffled.take count.toNat) }

/-- The word-span scan of RevealRandomWords: maximal runs of alphanumeric
characters as half-open index intervals. -/
def wordSpansAux : List Char → Nat → Bool → Nat → List (Nat × Nat)
  | [], i, inWord, start => if inWord then [(start, i)] else []
  | c :: rest, i, inWord, start =>
    if isAlnum c then
      if inWord then wordSpansAux rest (i + 1) true start
      else wordSpansAux rest (i + 1) true i
    else
      if inWord then (start, i) :: wordSpansAux rest (i + 1) false start
      else wordSpansAux rest (i + 1) false start

/-- RevealRandomWords from state.go, with rand.Shuffle replaced by an
arbitrary reordering function perm. -/
def State.RevealRandomWords (s : State) (perm : List (Nat × Nat) → List (Nat × Nat))
    (n : Int) : State :=
  let words := wordSpansAux s.Secret 0 false 0
  let shuffled := perm words
  let count : Int := if (words.length : Int) < n then words.length else n
  { s with
    Mask := (shuffled.take count.toNat).foldl
      (fun m sp => revealIdxs s.Secret m (List.range' sp.1 (sp.2 - sp.1))) s.Mask }

/-- ApplyGameModes from state.go. -/
def State.ApplyGameModes (s : State) (opts : GameOptions)
    (permL : List Nat → List Nat) (permW : List (Nat × Nat) → List (Nat × Nat)) : State :=
  let s := if opts.FirstLetter then s.RevealFirstLetters else s
  let s := if 0 < opts.NRandom then s.RevealRandomLetters permL opts.NRandom else s
  let s := if 0 < opts.NWords then s.RevealRandomWords permW opts.NWords else s
  s.SkipRevealed

/-- NewState from state.go (the fsm construction carries no state beyond the
idle start realised by the step functions). -/
def NewState (secretMessage : List Char) (cardWidth : Nat) (ta : List Char)
    (scoring : Scoring) (opts : GameOptions) : State :=
  let s : State :=
    { Textarea := ta
      Mask := []
      Secret := secretMessage
      Pos := 0
      Win := false
      Loss := false
      Revealed := false
      WrongLetter := false
      Score := scoring
      CardWidth := cardWidth
      BracketedPositions := []
      CurrentChar := []
      TimerEnabled := opts.TimerLimit != 0
      TimeLimit := 0
      TimeRemaining := 0
      Options := opts }
  if s.TimerEnabled then
    let limit : Int :=
      if opts.TimerLimit == -1 then
        let l : Int := (secretMessage.length : Int) / 3
        if l < 10 then 10 else l
      else opts.TimerLimit
    { s with TimeLimit := limit, TimeRemaining := limit }
  else s

/-- NewGame from game.go. -/
def NewGame (secretMessage : List Char) (cardWidth : Nat) (ta : List Char)
    (scoring : Scoring) (opts : GameOptions) : Game :=
  ⟨NewState secretMessage cardWidth ta scoring opts⟩

/-- Game.Init from game.go: bracket extraction, initial mask, game-mode
reveals, and the first textarea refresh. -/
def Game.Init (g : Game) (permL : List Nat → List Nat)
    (permW : List (Nat × Nat) → List (Nat × Nat)) : Game :=
  let s := g.State.SetBracketedPositions
  let s := s.InitMask
  let s := s.ApplyGameModes g.State.Options permL permW
  let s := { s with Textarea := s.Mask }
  ⟨s⟩

/-- One external event delivered to a game: a key press or a timer tick. -/
inductive GEvent where
  | key : List Char → GEvent
  | tick : GEvent
deriving Repr, DecidableEq

/-- Deliver one event to a game. -/
def Game.handleEvent (g : Game) : GEvent → Game
  | .key ch => g.HandleKeyPress ch
  | .tick => g.HandleTick

/-- Deliver a sequence of events to a game. -/
def Game.run (g : Game) (evs : List GEvent) : Game :=
  evs.foldl Game.handleEvent g

/-! ## Session orchestrator (session.go) -/

/-- CardData from loader.go. -/
structure CardData where
  Content : List Char
  Source : String
  Title : String
  PartIndex : Int
  TotalParts : Int
deriving Repr, DecidableEq

/-- Session from session.go. -/
structure Session where
  Cards : List CardData
  CurrentIndex : Nat
  CurrentGame : Option Game
  GameOptions : GoMem.GameOptions
  ScoreStorage : GoMem.ScoreStorage
  TotalScore : Int
  TotalTimeLimit : Int
  TimeRemaining : Int
  IsBatch : Bool
  Randomize : Bool
deriving Repr, DecidableEq

/-- splitLines from session.go. -/
def splitLines (s : List Char) : List (List Char) :=
  let p := s.foldl
    (fun (acc : List (List Char) × List Char) r =>
      if r == '\n' then (acc.1 ++ [acc.2], []) else (acc.1, acc.2 ++ [r]))
    ([], [])
  if p.2 == [] then p.1 else p.1 ++ [p.2]

/-- longestLineLen from session.go. -/
def longestLineLen (s : List Char) : Nat :=
  (splitLines s).foldl (fun m line => if m < line.length then line.length else m) 0

/-- Session.NextGame from session.go: build the next card's game, passing
the remaining session time as that card's timer limit when the session
tracks a budget.  hashFn, now and the two perms stand for the sha256 hash,
time.Now and the rand.Shuffle calls inside game initialization; the Go error
return for an exhausted card list becomes none. -/
def Session.NextGame (s : Session) (hashFn : List Char → String) (now : String)
    (permL : List Nat → List Nat) (permW : List (Nat × Nat) → List (Nat × Nat)) :
    Option Session :=
  if s.Cards.length ≤ s.CurrentIndex then none
  else
    let card := s.Cards.getD s.CurrentIndex ⟨[], "", "", 0, 0⟩
    let gameOpts :=
      if 0 < s.TotalTimeLimit then { s.GameOptions with TimerLimit := s.TimeRemaining }
      else { s.GameOptions with TimerLimit := 0 }
    let title :=
      if card.Title == "" then
        if 1 < card.TotalParts then card.Source ++ " #" ++ toString card.PartIndex
        else card.Source
      else card.Title
    let sc := InitScoring card.Content title s.ScoreStorage hashFn now
    let g := NewGame card.Content 0 [] sc gameOpts
    let g : Game := ⟨{ g.State with CardWidth := longestLineLen card.Content + 1 }⟩
    let g := g.Init permL permW
    some { s with CurrentGame := some g }

/-! ## Concrete fixtures and invariant predicates used by the claims -/

/-- An empty score ledger with no recorded writes. -/
def emptyScoreStorage : ScoreStorage := ⟨[], 0⟩

/-- A fixed stand-in for the sha256 content hash (its value is irrelevant to
the engine claims). -/
def constHash : List Char → String := fun _ => "hash"

/-- A freshly initialised game for a card text, as the session builds one:
scoring from an empty ledger, then NewGame and Init with identity
shuffles. -/
def mkTestGame (content : String) (opts : GameOptions) : Game :=
  let sc := InitScoring content.toList "Title" emptyScoreStorage constHash "now"
  (NewGame content.toList 20 [] sc opts).Init id id

/-- Timer-off, no-reveal-mode options. -/
def noModeOpts : GameOptions := ⟨0, false, 0, 0⟩

/-- Feed a list of key presses to a game. -/
def Game.runKeys (g : Game) (ks : List String) : Game :=
  g.run (ks.map (fun k => GEvent.key k.toList))

/-- The mask invariant of the specification: the mask has the length of the
secret and every mask position holds either the placeholder or the secret
character at that position (positions past the end read as the
placeholder). -/
def MaskInv (s : State) : Prop :=
  s.Mask.length = s.Secret.length ∧
    ∀ p, s.Mask.getD p '_' = '_' ∨ s.Mask.getD p '_' = s.Secret.getD p '_'

/-- One mask evolves into another over a fixed secret: the length is kept
and every position either keeps its value or becomes the secret character. -/
def maskEvolvesM (secret m m2 : List Char) : Prop :=
  m2.length = m.length ∧
    ∀ p, m2.getD p '_' = m.getD p '_' ∨ m2.getD p '_' = secret.getD p '_'

/-- One engine state evolves into another: same secret, mask evolved. -/
def MaskEvolves (s t : State) : Prop :=
  t.Secret = s.Secret ∧ maskEvolvesM s.Secret s.Mask t.Mask

/-- The type-through situation of the specification: some position i before
the cursor matches the input case-insensitively, and everything from i up to
the cursor is revealed and not a word/ignorable boundary. -/
def precedingRunHit (s : State) (ch : List Char) : Prop :=
  ∃ i, i < s.Pos ∧
    (∀ j, i ≤ j → j < s.Pos →
      s.Mask.getD j '_' ≠ '_' ∧ ShouldIgnore [s.Secret.getD j ' '] = false) ∧
    eqFold [s.Secret.getD i ' '] ch = true

/-- A two-card session with a positive total budget whose remaining time has
reached zero before the second card starts. -/
def sessionDrained : Session :=
  ⟨[⟨"Hi".toList, "src", "", 1, 2⟩, ⟨"By".toList, "src", "", 2, 2⟩], 1, none,
    noModeOpts, emptyScoreStorage, 0, 30, 0, true, false⟩

/-- The same session with seven seconds remaining. -/
def sessionSeven : Session :=
  ⟨[⟨"Hi".toList, "src", "", 1, 2⟩, ⟨"By".toList, "src", "", 2, 2⟩], 1, none,
    noModeOpts, emptyScoreStorage, 0, 30, 7, true, false⟩

/-! ## General lemmas -/

theorem getD_set_self {l : List Char} {i : Nat} {a d : Char} (h : i < l.length) :
    (l.set i a).getD i d = a := by
  rw [List.getD_eq_getElem?_getD, List.getElem?_set_self' ]
  simp [h]

theorem getD_set_ne {l : List Char} {i j : Nat} {a d : Char} (h : i ≠ j) :
    (l.set i a).getD j d = l.getD j d := by
  rw [List.getD_eq_getElem?_getD, List.getElem?_set_ne h, ← List.getD_eq_getElem?_getD]

theorem getD_of_length_le {l : List Char} {j : Nat} {d : Char} (h : l.length ≤ j) :
    l.getD j d = d := by
  rw [List.getD_eq_getElem?_getD, List.getElem?_eq_none h]
  rfl

/-! ## Shape lemmas: which fields each step function can touch -/

theorem skipBody_shape (s : State) :
    skipBody s =
      { s with
        Mask := if s.Mask.getD s.Pos '_' == '_' then revealAt s.Secret s.Mask s.Pos else s.Mask
        Pos := s.Pos + 1 } := rfl

theorem skipRevealedFuel_shape :
    ∀ (f : Nat) (s : State), ∃ m p, skipRevealedFuel f s = { s with Mask := m, Pos := p } := by
  intro f
  induction f with
  | zero => intro s; exact ⟨s.Mask, s.Pos, rfl⟩
  | succ f ih =>
    intro s
    rw [skipRevealedFuel]
    by_cases h : skipCond s = true
    · rw [if_pos h]
      obtain ⟨m, p, hmp⟩ := ih (skipBody s)
      exact ⟨m, p, hmp⟩
    · rw [if_neg h]
      exact ⟨s.Mask, s.Pos, rfl⟩

theorem skipRevealed_shape (s : State) :
    ∃ m p, s.SkipRevealed = { s with Mask := m, Pos := p } :=
  skipRevealedFuel_shape _ s

theorem applyGameModes_shape (s : State) (opts : GameOptions)
    (permL : List Nat → List Nat) (permW : List (Nat × Nat) → List (Nat × Nat)) :
    ∃ m p, s.ApplyGameModes opts permL permW = { s with Mask := m, Pos := p } := by
  unfold State.ApplyGameModes State.RevealFirstLetters State.RevealRandomLetters
    State.RevealRandomWords
  split <;> split <;> split <;>
    · obtain ⟨m, p, hmp⟩ := skipRevealed_shape _
      exact ⟨m, p, hmp⟩

theorem init_state_eq (g : Game) (permL : List Nat → List Nat)
    (permW : List (Nat × Nat) → List (Nat × Nat)) :
    g.Init permL permW =
      ⟨{ g.State.SetBracketedPositions.InitMask.ApplyGameModes g.State.Options permL permW with
          Textarea :=
            (g.State.SetBracketedPositions.InitMask.ApplyGameModes g.State.Options permL
              permW).Mask }⟩ := rfl

theorem init_frame (g : Game) (permL : List Nat → List Nat)
    (permW : List (Nat × Nat) → List (Nat × Nat)) :
    (g.Init permL permW).State.Win = g.State.Win ∧
    (g.Init permL permW).State.Loss = g.State.Loss ∧
    (g.Init permL permW).State.Score = g.State.Score ∧
    (g.Init permL permW).State.TimerEnabled = g.State.TimerEnabled ∧
    (g.Init permL permW).State.TimeLimit = g.State.TimeLimit ∧
    (g.Init permL permW).State.TimeRemaining = g.State.TimeRemaining ∧
    (g.Init permL permW).State.WrongLetter = g.State.WrongLetter := by
  obtain ⟨m, p, h⟩ :=
    applyGameModes_shape g.State.SetBracketedPositions.InitMask g.State.Options permL permW
  rw [init_state_eq, h]
  exact ⟨rfl, rfl, rfl, rfl, rfl, rfl, rfl⟩

/-! ## Claim C5: top-N score listing -/

/-- C5: for every history and every n, the top-N score listing returns the
entries of the merged list consisting of all historical entries for the text
plus the current in-progress entry, sorted by score descending and truncated
to length n.  Stated as equality with the definition written from the spec
words, plus sortedness of the result. -/
theorem c5_top_n_merged (sh : ScoreHistory) (n : Nat) :
    sh.GetNScoreEntries n = topNMergedSpec sh n ∧
    List.Sorted scoreGe (sh.GetNScoreEntries n) := by
  have heq : sh.GetNScoreEntries n = topNMergedSpec sh n := by
    unfold ScoreHistory.GetNScoreEntries topNMergedSpec
    cases hc : sh.CurrentScore with
    | none =>
      simp only [Option.toList, List.append_nil]
      split
      · exact (List.take_of_length_le (le_of_lt (by assumption))).symm
      · rfl
    | some cur =>
      simp only [Option.toList]
      split
      · exact (List.take_of_length_le (le_of_lt (by assumption))).symm
      · rfl
  refine ⟨heq, ?_⟩
  rw [heq]
  exact List.Pairwise.sublist (List.take_sublist _ _) (List.sorted_insertionSort _ _)

/-! ## Claim C10: unknown score events -/

/-- C10: calling ScoreEvent with an event string outside the score table
(none of baseScore, rightLetter, wrongLetter, hint, wordBonus, messageBonus)
leaves the current score and both counters unchanged while still refreshing
the in-progress ledger entry to the unchanged current score. -/
theorem c10_unknown_event (sc : Scoring) (event : String)
    (htable : sc.scoreTable = getScoreTable)
    (hev : event ∉ ["baseScore", "rightLetter", "wrongLetter", "hint",
      "wordBonus", "messageBonus"]) :
    (sc.ScoreEvent event).CurrentScore = sc.CurrentScore ∧
    (sc.ScoreEvent event).HintCount = sc.HintCount ∧
    (sc.ScoreEvent event).ErrorCount = sc.ErrorCount ∧
    (sc.ScoreEvent event).history.CurrentScore =
      sc.history.CurrentScore.map (fun e => { e with Score := sc.CurrentScore }) := by
  simp only [List.mem_cons, List.not_mem_nil, or_false, not_or] at hev
  obtain ⟨h1, h2, h3, h4, h5, h6⟩ := hev
  have htg : tableGet sc.scoreTable event = 0 := by
    rw [htable]
    simp [tableGet, getScoreTable, List.find?_cons, Ne.symm h1, Ne.symm h2, Ne.symm h3,
      Ne.symm h4, Ne.symm h5, Ne.symm h6]
  cases hcs : sc.history.CurrentScore with
  | none =>
    simp [Scoring.ScoreEvent, htg, hcs, h3, h4]
  | some e =>
    simp [Scoring.ScoreEvent, htg, hcs, h3, h4]

/-- Concrete instance discharging the hypotheses of c10_unknown_event. -/
theorem c10_unknown_event_witness :
    ((InitScoring "ab".toList "Title" emptyScoreStorage constHash "now").scoreTable =
        getScoreTable ∧
      "bogus" ∉ ["baseScore", "rightLetter", "wrongLetter", "hint",
        "wordBonus", "messageBonus"]) ∧
    (((InitScoring "ab".toList "Title" emptyScoreStorage constHash "now").ScoreEvent
          "bogus").CurrentScore =
        (InitScoring "ab".toList "Title" emptyScoreStorage constHash "now").CurrentScore ∧
      ((InitScoring "ab".toList "Title" emptyScoreStorage constHash "now").ScoreEvent
          "bogus").HintCount =
        (InitScoring "ab".toList "Title" emptyScoreStorage constHash "now").HintCount ∧
      ((InitScoring "ab".toList "Title" emptyScoreStorage constHash "now").ScoreEvent
          "bogus").ErrorCount =
        (InitScoring "ab".toList "Title" emptyScoreStorage constHash "now").ErrorCount ∧
      ((InitScoring "ab".toList "Title" emptyScoreStorage constHash "now").ScoreEvent
          "bogus").history.CurrentScore =
        (InitScoring "ab".toList "Title" emptyScoreStorage constHash
              "now").history.CurrentScore.map
          (fun e =>
            { e with
              Score :=
                (InitScoring "ab".toList "Title" emptyScoreStorage constHash
                    "now").CurrentScore })) :=
  ⟨⟨by decide, by decide⟩, c10_unknown_event _ _ (by decide) (by decide)⟩

/-! ## Claim C9: events after the game has ended -/

/-- C9: after the game has ended (Win or Loss), every further key press and
every further tick leaves the game completely unchanged. -/
theorem c9_ended_noop (g : Game) (ch : List Char)
    (h : g.State.Win = true ∨ g.State.Loss = true) :
    g.HandleKeyPress ch = g ∧ g.HandleTick = g := by
  unfold Game.HandleKeyPress Game.HandleTick
  rcases h with h | h <;> simp [h]

/-- Concrete instance discharging the hypothesis of c9_ended_noop: a won
game ignores a further key press and a further tick. -/
theorem c9_ended_noop_witness :
    (((mkTestGame "a" noModeOpts).runKeys ["a"]).State.Win = true ∨
      ((mkTestGame "a" noModeOpts).runKeys ["a"]).State.Loss = true) ∧
    (((mkTestGame "a" noModeOpts).runKeys ["a"]).HandleKeyPress "z".toList =
        (mkTestGame "a" noModeOpts).runKeys ["a"] ∧
      ((mkTestGame "a" noModeOpts).runKeys ["a"]).HandleTick =
        (mkTestGame "a" noModeOpts).runKeys ["a"]) :=
  ⟨Or.inl (by decide), c9_ended_noop _ _ (Or.inl (by decide))⟩

/-! ## Claim C3: the word-completion bonus is dead code -/

/-- C3 (code divergence): the engine checks GotCompletedWord at the matched
cursor position itself, before advancing, and after the skip-revealed pass
that position is never a space or non-question-mark punctuation, so no word
bonus is ever granted in normal play.  On the secret "Hi you" (timer off)
the claim predicts 300 points after typing h, i (25 + 25 + 250 for the word
completed before the space) and 1625 at the win; the code yields 50 and
1125, and the 250-point wordBonus entry of the score table is never
applied. -/
theorem c3_word_bonus_never_fires :
    ((mkTestGame "Hi you" noModeOpts).runKeys ["h", "i"]).State.Score.CurrentScore = 50 ∧
    ((mkTestGame "Hi you" noModeOpts).runKeys
        ["h", "i", "y", "o", "u"]).State.Win = true ∧
    ((mkTestGame "Hi you" noModeOpts).runKeys
        ["h", "i", "y", "o", "u"]).State.Score.CurrentScore = 1125 := by
  exact ⟨by decide, by decide, by decide⟩

/-! ## Counterexamples to the claims as frozen -/

/-- C2 counterexample: on the secret "abcde", after a, b, c, z the engine
sits at position 3 with the wrong-flag set, score 25, one error; a second
incorrect z at the same position changes the score to -25 and the error
count to 2, so the engine does re-penalize while the wrong-flag is set. -/
theorem c2_repenalize_counterexample :
    ((mkTestGame "abcde" noModeOpts).runKeys ["a", "b", "c", "z"]).State.WrongLetter = true ∧
    ((mkTestGame "abcde" noModeOpts).runKeys ["a", "b", "c", "z"]).State.Pos = 3 ∧
    ((mkTestGame "abcde" noModeOpts).runKeys
        ["a", "b", "c", "z"]).State.Score.CurrentScore = 25 ∧
    ((mkTestGame "abcde" noModeOpts).runKeys
        ["a", "b", "c", "z"]).State.Score.ErrorCount = 1 ∧
    ((mkTestGame "abcde" noModeOpts).runKeys
        ["a", "b", "c", "z", "z"]).State.Pos = 3 ∧
    ((mkTestGame "abcde" noModeOpts).runKeys
        ["a", "b", "c", "z", "z"]).State.Score.CurrentScore = -25 ∧
    ((mkTestGame "abcde" noModeOpts).runKeys
        ["a", "b", "c", "z", "z"]).State.Score.ErrorCount = 2 := by
  refine ⟨by decide, by decide, by decide, by decide, by decide, by decide, by decide⟩

/-- C4 counterexample: processing ctrl+c ends the game with a loss, but the
end-state handler still persists the attempt, so exactly one ledger write
happens on the quit path (the claim asserts none). -/
theorem c4_quit_persists_counterexample :
    (mkTestGame "Hi" noModeOpts).State.Score.storage.Saves = 0 ∧
    ((mkTestGame "Hi" noModeOpts).HandleKeyPress "ctrl+c".toList).State.Loss = true ∧
    ((mkTestGame "Hi" noModeOpts).HandleKeyPress "ctrl+c".toList).State.Win = false ∧
    ((mkTestGame "Hi" noModeOpts).HandleKeyPress
        "ctrl+c".toList).State.Score.storage.Saves = 1 := by
  refine ⟨by decide, by decide, by decide, by decide⟩

/-- C6 counterexample: in a two-card session with a positive total budget
whose remaining time is zero, the next card is built with the timer simply
disabled and no loss, not with an immediate loss as the claim states. -/
theorem c6_zero_budget_counterexample :
    0 < sessionDrained.TotalTimeLimit ∧
    sessionDrained.TimeRemaining = 0 ∧
    (sessionDrained.NextGame constHash "now" id id).map
        (fun s => s.CurrentGame.map fun g =>
          (g.State.Loss, g.State.TimerEnabled, g.State.TimeLimit)) =
      some (some (false, false, 0)) := by
  refine ⟨by decide, by decide, by decide⟩

/-- C7 counterexample: on the one-character secret "a", the input a equals
the character at the cursor, yet processing it wins the game without
advancing the cursor, so the claim conjunct that the cursor always advances
is false. -/
theorem c7_final_char_counterexample :
    (mkTestGame "a" noModeOpts).State.IsCorrectLetter "a".toList = true ∧
    (mkTestGame "a" noModeOpts).State.Pos = 0 ∧
    ((mkTestGame "a" noModeOpts).HandleKeyPress "a".toList).State.Pos = 0 ∧
    ((mkTestGame "a" noModeOpts).HandleKeyPress "a".toList).State.Win = true := by
  refine ⟨by decide, by decide, by decide, by decide⟩

/-- C8 counterexample: on the secret "aba" after typing a, b, the contiguous
revealed non-boundary run a, b sits immediately before the cursor and the
run character a also equals the character at the cursor; typing it is then a
correctness check (score 50 becomes 1075, game won), not a no-op as the
claim states for every character of the run. -/
theorem c8_correct_char_counterexample :
    ((mkTestGame "aba" noModeOpts).runKeys ["a", "b"]).State.Pos = 2 ∧
    ((mkTestGame "aba" noModeOpts).runKeys ["a", "b"]).State.Mask = ['a', 'b', '_'] ∧
    ((mkTestGame "aba" noModeOpts).runKeys
        ["a", "b"]).State.Score.CurrentScore = 50 ∧
    eqFold ['a'] "a".toList = true ∧
    ((mkTestGame "aba" noModeOpts).runKeys
        ["a", "b", "a"]).State.Score.CurrentScore = 1075 ∧
    ((mkTestGame "aba" noModeOpts).runKeys ["a", "b", "a"]).State.Win = true := by
  refine ⟨by decide, by decide, by decide, by decide, by decide, by decide⟩

/-! ## Claim C4 (amended): quit ends the game with a loss and one ledger write -/

/-- C4 as amended: in a running game (not yet won or lost, textarea not
already the full secret, an in-progress ledger entry present), processing
the quit signal ctrl+c declares a loss and ends the game, and the end-state
handler persists the attempt exactly once: the ledger write count rises by
one, while mask and current score are untouched. -/
theorem c4_amended_quit_saves (g : Game)
    (hw : g.State.Win = false) (hl : g.State.Loss = false)
    (hta : g.State.GotCorrectMessage = false)
    (hcur : g.State.Score.history.CurrentScore.isSome = true) :
    (g.HandleKeyPress "ctrl+c".toList).State.Loss = true ∧
    (g.HandleKeyPress "ctrl+c".toList).State.Score.storage.Saves =
      g.State.Score.storage.Saves + 1 ∧
    (g.HandleKeyPress "ctrl+c".toList).State.Mask = g.State.Mask ∧
    (g.HandleKeyPress "ctrl+c".toList).State.Score.CurrentScore =
      g.State.Score.CurrentScore := by
  obtain ⟨cur, hc⟩ := Option.isSome_iff_exists.mp hcur
  have hguard : ¬((g.State.Win || g.State.Loss) = true) := by rw [hw, hl]; simp
  have hta2 : (g.State.Secret == g.State.Textarea) = false := by
    simpa [State.GotCorrectMessage] using hta
  unfold Game.HandleKeyPress State.checkGameState
  rw [if_neg hguard]
  simp only [State.GotCorrectMessage, hta2, Bool.false_eq_true, if_false,
    IsExitRequested, beq_self_eq_true, if_true, State.endState, Scoring.SaveEntries, hc,
    ScoreStorage.SaveAll, ScoreStorage.LoadAll]
  exact ⟨trivial, trivial, trivial, trivial⟩

/-- Concrete instance discharging the hypotheses of c4_amended_quit_saves. -/
theorem c4_amended_quit_saves_witness :
    ((mkTestGame "ab" noModeOpts).State.Win = false ∧
      (mkTestGame "ab" noModeOpts).State.Loss = false ∧
      (mkTestGame "ab" noModeOpts).State.GotCorrectMessage = false ∧
      (mkTestGame "ab" noModeOpts).State.Score.history.CurrentScore.isSome = true) ∧
    (((mkTestGame "ab" noModeOpts).HandleKeyPress "ctrl+c".toList).State.Loss = true ∧
      ((mkTestGame "ab" noModeOpts).HandleKeyPress
          "ctrl+c".toList).State.Score.storage.Saves =
        (mkTestGame "ab" noModeOpts).State.Score.storage.Saves + 1 ∧
      ((mkTestGame "ab" noModeOpts).HandleKeyPress "ctrl+c".toList).State.Mask =
        (mkTestGame "ab" noModeOpts).State.Mask ∧
      ((mkTestGame "ab" noModeOpts).HandleKeyPress
          "ctrl+c".toList).State.Score.CurrentScore =
        (mkTestGame "ab" noModeOpts).State.Score.CurrentScore) :=
  ⟨⟨by decide, by decide, by decide, by decide⟩,
    c4_amended_quit_saves _ (by decide) (by decide) (by decide) (by decide)⟩

/-! ## Claim C6 (amended): session timer carry-over -/

theorem newState_timer_fields (content : List Char) (cw : Nat) (ta : List Char)
    (sc : Scoring) (opts : GameOptions) :
    (NewState content cw ta sc opts).TimerEnabled = (opts.TimerLimit != 0) ∧
    (NewState content cw ta sc opts).Loss = false ∧
    (NewState content cw ta sc opts).Win = false ∧
    ((opts.TimerLimit != 0) = false →
      (NewState content cw ta sc opts).TimeLimit = 0 ∧
      (NewState content cw ta sc opts).TimeRemaining = 0) ∧
    ((opts.TimerLimit != 0) = true → (opts.TimerLimit == -1) = false →
      (NewState content cw ta sc opts).TimeLimit = opts.TimerLimit ∧
      (NewState content cw ta sc opts).TimeRemaining = opts.TimerLimit) := by
  unfold NewState
  cases hb : (opts.TimerLimit != 0) with
  | true =>
    simp only [if_true]
    refine ⟨trivial, trivial, trivial, fun hfalse => absurd hfalse (by simp),
      fun _ hne => ?_⟩
    rw [hne]
    simp only [Bool.false_eq_true, if_false]
    exact ⟨trivial, trivial⟩
  | false =>
    simp only [Bool.false_eq_true, if_false]
    exact ⟨trivial, trivial, trivial, fun _ => ⟨trivial, trivial⟩,
      fun htrue => absurd htrue (by simp)⟩

/-- C6 as amended: in a session with budget tracking active and a card left,
the next game is built with countdown limit exactly the remaining time R
when R is positive; when R is zero the next game is built with the timer
disabled and no loss (it is not immediately a loss, which corrects the
claim).  The shared pool is carried over, never reset per card. -/
theorem c6_amended_carry_over (s : Session) (hashFn : List Char → String) (now : String)
    (permL : List Nat → List Nat) (permW : List (Nat × Nat) → List (Nat × Nat))
    (hbudget : 0 < s.TotalTimeLimit)
    (hidx : s.CurrentIndex < s.Cards.length) :
    ∃ s2 g, s.NextGame hashFn now permL permW = some s2 ∧ s2.CurrentGame = some g ∧
      (0 < s.TimeRemaining →
        g.State.TimerEnabled = true ∧ g.State.TimeLimit = s.TimeRemaining ∧
        g.State.TimeRemaining = s.TimeRemaining) ∧
      (s.TimeRemaining = 0 →
        g.State.TimerEnabled = false ∧ g.State.Loss = false ∧ g.State.TimeLimit = 0) := by
  unfold Session.NextGame
  rw [if_neg (not_le.mpr hidx), if_pos hbudget]
  refine ⟨_, _, rfl, rfl, ?_, ?_⟩ <;> intro hcase
  · rw [(init_frame _ permL permW).2.2.2.1, (init_frame _ permL permW).2.2.2.2.1,
      (init_frame _ permL permW).2.2.2.2.2.1]
    simp only [NewGame]
    have hne0 :
        (({ s.GameOptions with TimerLimit := s.TimeRemaining } : GameOptions).TimerLimit !=
          0) = true := by
      simp only [bne_iff_ne]
      exact fun h0 => absurd hcase (by simp [h0])
    have hnem1 :
        (({ s.GameOptions with TimerLimit := s.TimeRemaining } : GameOptions).TimerLimit ==
          -1) = false := by
      simp only [beq_eq_false_iff_ne]
      exact fun h1 => by omega
    obtain ⟨hTE, hL, hW, hoff, hon⟩ := newState_timer_fields
      (s.Cards.getD s.CurrentIndex ⟨[], "", "", 0, 0⟩).Content 0 [] _
      { s.GameOptions with TimerLimit := s.TimeRemaining }
    obtain ⟨hlim, hrem⟩ := hon hne0 hnem1
    exact ⟨by rw [hTE]; exact hne0, by rw [hlim], by rw [hrem]⟩
  · rw [(init_frame _ permL permW).2.2.2.1, (init_frame _ permL permW).2.1,
      (init_frame _ permL permW).2.2.2.2.1]
    try simp only [NewGame]
    have heq0 :
        (({ s.GameOptions with TimerLimit := s.TimeRemaining } : GameOptions).TimerLimit !=
          0) = false := by
      simp [hcase]
    obtain ⟨hTE, hL, hW, hoff, hon⟩ := newState_timer_fields
      (s.Cards.getD s.CurrentIndex ⟨[], "", "", 0, 0⟩).Content 0 [] _
      { s.GameOptions with TimerLimit := s.TimeRemaining }
    obtain ⟨hlim, hrem⟩ := hoff heq0
    exact ⟨by rw [hTE]; exact heq0, by rw [hL], by rw [hlim]⟩

/-- Concrete instance discharging the hypotheses of c6_amended_carry_over:
a session with budget 30, seven seconds remaining, one card left. -/
theorem c6_amended_carry_over_witness :
    (0 < sessionSeven.TotalTimeLimit ∧
      sessionSeven.CurrentIndex < sessionSeven.Cards.length) ∧
    (∃ s2 g, sessionSeven.NextGame constHash "now" id id = some s2 ∧
      s2.CurrentGame = some g ∧
      (0 < sessionSeven.TimeRemaining →
        g.State.TimerEnabled = true ∧ g.State.TimeLimit = sessionSeven.TimeRemaining ∧
        g.State.TimeRemaining = sessionSeven.TimeRemaining) ∧
      (sessionSeven.TimeRemaining = 0 →
        g.State.TimerEnabled = false ∧ g.State.Loss = false ∧ g.State.TimeLimit = 0)) :=
  ⟨⟨by decide, by decide⟩,
    c6_amended_carry_over sessionSeven constHash "now" id id (by decide) (by decide)⟩

/-! ## Field lemmas for the step functions -/

theorem tableGet_rightLetter : tableGet getScoreTable "rightLetter" = 25 := by decide

theorem tableGet_wrongLetter : tableGet getScoreTable "wrongLetter" = -50 := by decide

theorem tableGet_wordBonus : tableGet getScoreTable "wordBonus" = 250 := by decide

theorem tableGet_messageBonus : tableGet getScoreTable "messageBonus" = 1000 := by decide


theorem scoreEvent_fields (sc : Scoring) (event : String) :
    (sc.ScoreEvent event).CurrentScore = sc.CurrentScore + tableGet sc.scoreTable event ∧
    (sc.ScoreEvent event).scoreTable = sc.scoreTable ∧
    (sc.ScoreEvent event).storage = sc.storage ∧
    (sc.ScoreEvent event).HintCount =
      (if event == "hint" then sc.HintCount + 1 else sc.HintCount) ∧
    (sc.ScoreEvent event).ErrorCount =
      (if event == "wrongLetter" then sc.ErrorCount + 1 else sc.ErrorCount) := by
  have hhw : ¬((event == "hint") = true ∧ (event == "wrongLetter") = true) := by
    rintro ⟨a, b⟩
    rw [beq_iff_eq] at a
    subst a
    exact absurd b (by decide)
  unfold Scoring.ScoreEvent
  by_cases h1 : (event == "hint") = true <;> by_cases h2 : (event == "wrongLetter") = true
  · exact absurd ⟨h1, h2⟩ hhw
  all_goals cases hcs : sc.history.CurrentScore <;> simp [h1, h2, hcs]

theorem addTimeBonus_fields (sc : Scoring) (t : Int) :
    (sc.AddTimeBonus t).CurrentScore = sc.CurrentScore + t * 10 ∧
    (sc.AddTimeBonus t).scoreTable = sc.scoreTable ∧
    (sc.AddTimeBonus t).storage = sc.storage ∧
    (sc.AddTimeBonus t).HintCount = sc.HintCount ∧
    (sc.AddTimeBonus t).ErrorCount = sc.ErrorCount := by
  unfold Scoring.AddTimeBonus
  cases hcs : sc.history.CurrentScore <;> simp [hcs]

theorem saveEntries_fields (sc : Scoring) :
    (sc.SaveEntries).CurrentScore = sc.CurrentScore ∧
    (sc.SaveEntries).scoreTable = sc.scoreTable ∧
    (sc.SaveEntries).HintCount = sc.HintCount ∧
    (sc.SaveEntries).ErrorCount = sc.ErrorCount := by
  unfold Scoring.SaveEntries
  cases hcs : sc.history.CurrentScore <;> simp [hcs]


theorem evaluating_fields (s : State) :
    (s.evaluating).Mask = s.Mask ∧
    (s.evaluating).Pos = s.Pos ∧
    (s.evaluating).Secret = s.Secret ∧
    (s.evaluating).WrongLetter = s.WrongLetter ∧
    (s.evaluating).Score.HintCount = s.Score.HintCount ∧
    (s.evaluating).Score.ErrorCount = s.Score.ErrorCount ∧
    ((s.evaluating).Score.CurrentScore = s.Score.CurrentScore ∨
      (s.evaluating).Score.CurrentScore =
        s.Score.CurrentScore + tableGet s.Score.scoreTable "messageBonus") := by
  unfold State.evaluating State.endState State.scoreEvent
  by_cases h1 : s.IsGameOver = true
  · rw [if_pos h1]
    by_cases h2 : s.LostGame = true
    · rw [if_pos h2]
      obtain ⟨a, b, c, d⟩ := saveEntries_fields s.Score
      exact ⟨rfl, rfl, rfl, rfl, by rw [c], by rw [d], Or.inl (by rw [a])⟩
    · rw [if_neg h2]
      obtain ⟨a2, b2, c2, d2, e2⟩ := scoreEvent_fields s.Score "messageBonus"
      obtain ⟨a, b, c, d⟩ := saveEntries_fields (s.Score.ScoreEvent "messageBonus")
      refine ⟨rfl, rfl, rfl, rfl, ?_, ?_, Or.inr ?_⟩
      · rw [c, d2]; simp
      · rw [d, e2]; simp
      · rw [a, a2]
  · rw [if_neg h1]
    by_cases h2 : s.Score.CurrentScore < 0
    · rw [if_pos h2]
      obtain ⟨a, b, c, d⟩ := saveEntries_fields s.Score
      exact ⟨rfl, rfl, rfl, rfl, by rw [c], by rw [d], Or.inl (by rw [a])⟩
    · rw [if_neg h2]
      exact ⟨rfl, rfl, rfl, rfl, rfl, rfl, Or.inl rfl⟩

theorem evaluating_score_of_pos_lt (s : State) (hpos : s.Pos < s.Secret.length) :
    (s.evaluating).Score.CurrentScore = s.Score.CurrentScore := by
  unfold State.evaluating State.endState
  by_cases h1 : s.IsGameOver = true
  · have hlost : s.LostGame = true := by
      unfold State.IsGameOver at h1
      unfold State.LostGame State.IsGameOver
      simp only [Bool.or_eq_true, decide_eq_true_eq] at h1 ⊢
      rcases h1 with h1 | h1
      · exact absurd h1 (not_le.mpr hpos)
      · exact Or.inl h1
    rw [if_pos h1, if_pos hlost]
    exact (saveEntries_fields _).1
  · rw [if_neg h1]
    by_cases h2 : s.Score.CurrentScore < 0
    · rw [if_pos h2]
      exact (saveEntries_fields _).1
    · rw [if_neg h2]

theorem evaluating_id (s : State) (hpos : s.Pos < s.Secret.length)
    (hscore : 0 ≤ s.Score.CurrentScore) : s.evaluating = s := by
  unfold State.evaluating
  rw [if_neg, if_neg (not_lt.mpr hscore)]
  unfold State.IsGameOver
  simp only [Bool.or_eq_true, decide_eq_true_eq]
  push_neg
  exact ⟨hpos, hscore⟩


theorem isIncorrect_of_not_correct (s : State) (ch : List Char)
    (h : s.IsCorrectLetter ch = false) : s.IsIncorrectLetter ch = true := by
  unfold State.IsCorrectLetter at h
  unfold State.IsIncorrectLetter
  by_cases hp : s.Secret.length ≤ s.Pos
  · rw [if_pos hp]
  · rw [if_neg hp] at h ⊢
    simp only [bne_iff_ne, ne_eq]
    intro heq
    rw [heq] at h
    simp at h

theorem isCorrectLetter_length (s : State) (ch : List Char)
    (h : s.IsCorrectLetter ch = true) : ch.length = 1 := by
  unfold State.IsCorrectLetter at h
  by_cases hp : s.Secret.length ≤ s.Pos
  · rw [if_pos hp] at h; cases h
  · rw [if_neg hp] at h
    have := beq_iff_eq.mp h
    have hlen := congrArg List.length this
    simpa [lowerStr] using hlen

theorem eqFold_length (a : Char) (ch : List Char)
    (h : eqFold [a] ch = true) : ch.length = 1 := by
  unfold eqFold at h
  have := beq_iff_eq.mp h
  have hlen := congrArg List.length this
  simpa [lowerStr] using hlen.symm

theorem notExit_of_length (ch : List Char) (h : ch.length = 1) :
    IsExitRequested ch = false := by
  unfold IsExitRequested
  rw [beq_eq_false_iff_ne]
  intro heq
  rw [heq] at h
  simp at h

theorem notReveal_of_length (ch : List Char) (h : ch.length = 1) :
    IsRevealRequested ch = false := by
  unfold IsRevealRequested
  rw [beq_eq_false_iff_ne]
  intro heq
  rw [heq] at h
  simp at h

theorem checkGameState_to_processChar (s : State) (ch : List Char)
    (hta : s.GotCorrectMessage = false)
    (hexit : IsExitRequested ch = false)
    (hscore : 0 ≤ s.Score.CurrentScore)
    (hreveal : IsRevealRequested ch = false) :
    s.checkGameState ch = ({ s with CurrentChar := ch }).processChar := by
  simp only [State.checkGameState]
  have h1 : ({ s with CurrentChar := ch } : State).GotCorrectMessage = false := hta
  have h2 : ¬(({ s with CurrentChar := ch } : State).Score.CurrentScore < 0) :=
    not_lt.mpr hscore
  rw [h1]
  simp only [Bool.false_eq_true, if_false]
  rw [hexit]
  simp only [Bool.false_eq_true, if_false]
  rw [if_neg h2, hreveal]
  simp only [Bool.false_eq_true, if_false]

theorem skipRevealed_id (s : State) (h : skipCond s = false) : s.SkipRevealed = s := by
  unfold State.SkipRevealed
  cases hf : s.Secret.length - s.Pos with
  | zero => rfl
  | succ f =>
    rw [skipRevealedFuel, h]
    simp


theorem processChar_check (s : State)
    (hstable : skipCond s = false)
    (hpos : s.Pos < s.Secret.length)
    (hside : s.IsCorrectLetter s.CurrentChar = true ∨
      (typeThroughScan s.Secret s.Mask s.CurrentChar s.Pos = false ∧
        ShouldIgnore s.CurrentChar = false ∧ (s.CurrentChar == ['?']) = false)) :
    s.processChar = ({ s with Textarea := s.Mask }).checkCorrectness := by
  simp only [State.processChar]
  rw [skipRevealed_id s hstable]
  rw [if_neg (not_le.mpr hpos)]
  by_cases hcor : ({ s with Textarea := s.Mask } : State).IsCorrectLetter s.CurrentChar = true
  · rw [if_pos hcor]
  · rw [if_neg hcor]
    rcases hside with hc | ⟨hscan, hign, hq⟩
    · exact absurd hc hcor
    · rw [hscan]
      simp only [Bool.false_eq_true, if_false]
      rw [hign]
      simp only [Bool.false_eq_true, if_false]
      rw [hq]
      simp only [Bool.false_eq_true, if_false]

theorem processChar_ignore (s : State)
    (hstable : skipCond s = false)
    (hpos : s.Pos < s.Secret.length)
    (hnc : s.IsCorrectLetter s.CurrentChar = false)
    (hscan : typeThroughScan s.Secret s.Mask s.CurrentChar s.Pos = true) :
    s.processChar = ({ s with Textarea := s.Mask }).evaluating := by
  simp only [State.processChar]
  rw [skipRevealed_id s hstable]
  rw [if_neg (not_le.mpr hpos)]
  have hnc2 : ({ s with Textarea := s.Mask } : State).IsCorrectLetter s.CurrentChar = false := hnc
  rw [hnc2]
  simp only [Bool.false_eq_true, if_false]
  rw [hscan]
  simp only [if_true]

theorem checkCorrectness_match (s : State)
    (hc : s.IsCorrectLetter s.CurrentChar = true) :
    s.checkCorrectness = ({ s with WrongLetter := false }).gotMatch := by
  unfold State.checkCorrectness
  cases hw : s.WrongLetter with
  | true =>
    rw [if_pos rfl, if_pos hc]
  | false =>
    rw [if_neg (by simp), if_pos hc]
    have heq : ({ s with WrongLetter := false } : State) = s := by
      rw [← hw]
    rw [heq]

theorem checkCorrectness_mismatch (s : State)
    (hc : s.IsCorrectLetter s.CurrentChar = false) :
    s.checkCorrectness = s.noMatch := by
  unfold State.checkCorrectness
  cases hw : s.WrongLetter with
  | true =>
    rw [if_pos rfl, if_neg (by rw [hc]; simp)]
  | false =>
    rw [if_neg (by simp), if_neg (by rw [hc]; simp),
      if_pos (isIncorrect_of_not_correct s s.CurrentChar hc)]

theorem noMatch_fields (s : State) (hpos : s.Pos < s.Secret.length) :
    (s.noMatch).Score.CurrentScore =
      s.Score.CurrentScore + tableGet s.Score.scoreTable "wrongLetter" ∧
    (s.noMatch).Score.ErrorCount = s.Score.ErrorCount + 1 ∧
    (s.noMatch).Score.HintCount = s.Score.HintCount ∧
    (s.noMatch).WrongLetter = true ∧
    (s.noMatch).Pos = s.Pos ∧
    (s.noMatch).Mask = s.Mask := by
  unfold State.noMatch State.scoreEvent
  obtain ⟨ea, eb, ec, ed, ee, ef, _⟩ := evaluating_fields
    { s with
      WrongLetter := true
      Score := s.Score.ScoreEvent "wrongLetter"
      Textarea := s.Mask }
  obtain ⟨sa, sb, sc2, sd, se⟩ := scoreEvent_fields s.Score "wrongLetter"
  have hsc := evaluating_score_of_pos_lt
    { s with
      WrongLetter := true
      Score := s.Score.ScoreEvent "wrongLetter"
      Textarea := s.Mask } hpos
  refine ⟨?_, ?_, ?_, ?_, ?_, ?_⟩
  · rw [hsc]; exact sa
  · rw [ef, se]; simp
  · rw [ee, sd]; simp
  · rw [ed]
  · rw [eb]
  · rw [ea]


/-- C2 as amended: while the wrong-flag is set for the current cursor
position, processing another incorrect input at that same position keeps the
flag set and applies the wrong-letter penalty again: the score drops by 50
and the error count rises by one; mismatches are re-penalized, not
suppressed.  The hypotheses pin the processing path: a running game, the
cursor parked on an unrevealed non-ignorable position, input neither the
correct letter, nor in the preceding revealed run, nor ignorable, nor a
control or hint key. -/
theorem c2_amended_repenalizes (g : Game) (ch : List Char)
    (hw : g.State.Win = false) (hl : g.State.Loss = false)
    (hwrong : g.State.WrongLetter = true)
    (hta : g.State.GotCorrectMessage = false)
    (hscore : 0 ≤ g.State.Score.CurrentScore)
    (htable : g.State.Score.scoreTable = getScoreTable)
    (hstable : skipCond g.State = false)
    (hpos : g.State.Pos < g.State.Secret.length)
    (hexit : IsExitRequested ch = false)
    (hreveal : IsRevealRequested ch = false)
    (hnc : g.State.IsCorrectLetter ch = false)
    (hscan : typeThroughScan g.State.Secret g.State.Mask ch g.State.Pos = false)
    (hign : ShouldIgnore ch = false)
    (hq : (ch == ['?']) = false) :
    (g.HandleKeyPress ch).State.Score.CurrentScore = g.State.Score.CurrentScore - 50 ∧
    (g.HandleKeyPress ch).State.Score.ErrorCount = g.State.Score.ErrorCount + 1 ∧
    (g.HandleKeyPress ch).State.WrongLetter = true ∧
    (g.HandleKeyPress ch).State.Pos = g.State.Pos := by
  have hguard : ¬((g.State.Win || g.State.Loss) = true) := by rw [hw, hl]; simp
  have e1 : g.HandleKeyPress ch = ⟨({ g.State with CurrentChar := ch }).processChar⟩ := by
    unfold Game.HandleKeyPress
    rw [if_neg hguard, checkGameState_to_processChar g.State ch hta hexit hscore hreveal]
  have e2 : ({ g.State with CurrentChar := ch } : State).processChar =
      ({ g.State with
          CurrentChar := ch
          Textarea := g.State.Mask } : State).checkCorrectness :=
    processChar_check { g.State with CurrentChar := ch } hstable hpos
      (Or.inr ⟨hscan, hign, hq⟩)
  have e3 : ({ g.State with
        CurrentChar := ch
        Textarea := g.State.Mask } : State).checkCorrectness =
      ({ g.State with
          CurrentChar := ch
          Textarea := g.State.Mask } : State).noMatch :=
    checkCorrectness_mismatch _ hnc
  have estate : (g.HandleKeyPress ch).State =
      ({ g.State with
          CurrentChar := ch
          Textarea := g.State.Mask } : State).noMatch := by
    rw [e1]
    show ({ g.State with CurrentChar := ch } : State).processChar = _
    rw [e2, e3]
  obtain ⟨na, nb, nc2, nd, ne2, nf⟩ :=
    noMatch_fields
      { g.State with
        CurrentChar := ch
        Textarea := g.State.Mask } hpos
  rw [estate]
  refine ⟨?_, ?_, ?_, ?_⟩
  · rw [na]
    show g.State.Score.CurrentScore + tableGet g.State.Score.scoreTable "wrongLetter" = _
    rw [htable, tableGet_wrongLetter]
    omega
  · rw [nb]
  · rw [nd]
  · rw [ne2]


theorem typeThroughScan_of_runHit :
    ∀ (k : Nat) (secret mask ch : List Char) (i : Nat),
    i < k →
    (∀ j, i ≤ j → j < k →
      mask.getD j '_' ≠ '_' ∧ ShouldIgnore [secret.getD j ' '] = false) →
    eqFold [secret.getD i ' '] ch = true →
    typeThroughScan secret mask ch k = true := by
  intro k
  induction k with
  | zero => intro _ _ _ i hi; omega
  | succ k ih =>
    intro secret mask ch i hi hclean hm
    rw [typeThroughScan]
    obtain ⟨hmk, hik⟩ := hclean k (by omega) (by omega)
    rw [show (mask.getD k '_' == '_') = false from beq_eq_false_iff_ne.mpr hmk]
    simp only [Bool.false_eq_true, if_false]
    rw [hik]
    simp only [Bool.false_eq_true, if_false]
    by_cases hek : eqFold [secret.getD k ' '] ch = true
    · rw [hek]
      simp
    · have hekf : eqFold [secret.getD k ' '] ch = false := by
        revert hek; cases eqFold [secret.getD k ' '] ch <;> simp
      rw [hekf]
      simp only [Bool.false_eq_true, if_false]
      rcases Nat.lt_or_ge i k with hik2 | hge
      · exact ih secret mask ch i hik2 (fun j a b => hclean j a (by omega)) hm
      · have hieq : i = k := by omega
        subst hieq
        exact absurd hm hek

/-- C8 as amended: with a contiguous revealed, non-boundary run immediately
before the cursor, typing any character from that run that is not also the
correct character at the cursor is a no-op: score, cursor position,
wrong-letter flag and mask are unchanged and the game is neither won nor
lost.  A run character equal to the character at the cursor is instead
handled by the priority rule. -/
theorem c8_amended_type_through (g : Game) (ch : List Char)
    (hw : g.State.Win = false) (hl : g.State.Loss = false)
    (hta : g.State.GotCorrectMessage = false)
    (hscore : 0 ≤ g.State.Score.CurrentScore)
    (hstable : skipCond g.State = false)
    (hpos : g.State.Pos < g.State.Secret.length)
    (hrun : precedingRunHit g.State ch)
    (hnc : g.State.IsCorrectLetter ch = false) :
    (g.HandleKeyPress ch).State.Score = g.State.Score ∧
    (g.HandleKeyPress ch).State.Pos = g.State.Pos ∧
    (g.HandleKeyPress ch).State.WrongLetter = g.State.WrongLetter ∧
    (g.HandleKeyPress ch).State.Mask = g.State.Mask ∧
    (g.HandleKeyPress ch).State.Win = false ∧
    (g.HandleKeyPress ch).State.Loss = false := by
  obtain ⟨i, hi, hclean, hm⟩ := hrun
  have hlen : ch.length = 1 := eqFold_length _ _ hm
  have hguard : ¬((g.State.Win || g.State.Loss) = true) := by rw [hw, hl]; simp
  have hscan : typeThroughScan g.State.Secret g.State.Mask ch g.State.Pos = true :=
    typeThroughScan_of_runHit g.State.Pos g.State.Secret g.State.Mask ch i hi hclean hm
  have e1 : g.HandleKeyPress ch = ⟨({ g.State with CurrentChar := ch }).processChar⟩ := by
    unfold Game.HandleKeyPress
    rw [if_neg hguard, checkGameState_to_processChar g.State ch hta
      (notExit_of_length ch hlen) hscore (notReveal_of_length ch hlen)]
  have e2 : ({ g.State with CurrentChar := ch } : State).processChar =
      ({ g.State with
          CurrentChar := ch
          Textarea := g.State.Mask } : State).evaluating :=
    processChar_ignore { g.State with CurrentChar := ch } hstable hpos hnc hscan
  have e3 : ({ g.State with
        CurrentChar := ch
        Textarea := g.State.Mask } : State).evaluating =
      ({ g.State with
          CurrentChar := ch
          Textarea := g.State.Mask } : State) :=
    evaluating_id _ hpos hscore
  have estate : (g.HandleKeyPress ch).State =
      ({ g.State with
          CurrentChar := ch
          Textarea := g.State.Mask } : State) := by
    rw [e1]
    show ({ g.State with CurrentChar := ch } : State).processChar = _
    rw [e2, e3]
  rw [estate]
  exact ⟨rfl, rfl, rfl, rfl, hw, hl⟩


theorem endState_fields (s : State) :
    (s.endState).Mask = s.Mask ∧ (s.endState).Pos = s.Pos ∧
    (s.endState).Win = s.Win ∧ (s.endState).WrongLetter = s.WrongLetter ∧
    (s.endState).Score.CurrentScore = s.Score.CurrentScore := by
  unfold State.endState
  exact ⟨rfl, rfl, rfl, rfl, (saveEntries_fields s.Score).1⟩

theorem gotMatch_fields (s : State) :
    (s.gotMatch).Mask = revealAt s.Secret s.Mask s.Pos ∧
    (s.gotMatch).WrongLetter = s.WrongLetter ∧
    ((s.gotMatch).Pos = s.Pos + 1 ∨
      ((s.gotMatch).Win = true ∧ (s.gotMatch).Pos = s.Pos)) ∧
    (∃ (b w : Bool) (tb : Int),
      (s.gotMatch).Score.CurrentScore =
        s.Score.CurrentScore + tableGet s.Score.scoreTable "rightLetter" +
          (if b then tableGet s.Score.scoreTable "wordBonus" else 0) +
          (if w then tableGet s.Score.scoreTable "messageBonus" else 0) + tb * 10) := by
  simp only [State.gotMatch, State.scoreEvent]
  obtain ⟨ra, rb, rc, rd, re⟩ := scoreEvent_fields s.Score "rightLetter"
  by_cases hgw : ({ s with
      Mask := revealAt s.Secret s.Mask s.Pos
      Score := s.Score.ScoreEvent "rightLetter" } : State).GotCompletedWord = true
  case pos =>
    rw [if_pos hgw]
    obtain ⟨wa, wb, wc, wd, we⟩ := scoreEvent_fields (s.Score.ScoreEvent "rightLetter") "wordBonus"
    by_cases hwin : (revealAt s.Secret s.Mask s.Pos == s.Secret) = true
    case pos =>
      rw [if_pos hwin]
      obtain ⟨ma, mb, mc, md, me⟩ := scoreEvent_fields
        ((s.Score.ScoreEvent "rightLetter").ScoreEvent "wordBonus") "messageBonus"
      by_cases hTE : s.TimerEnabled = true
      case pos =>
        rw [if_pos hTE]
        obtain ⟨ta2, tb2, tc2, td2, te2⟩ := addTimeBonus_fields
          (((s.Score.ScoreEvent "rightLetter").ScoreEvent "wordBonus").ScoreEvent
            "messageBonus") s.TimeRemaining
        obtain ⟨fa, fb, fc, fd, fe⟩ := endState_fields _
        refine ⟨by rw [fa], by rw [fd], Or.inr ⟨by rw [fc], by rw [fb]⟩,
          ⟨true, true, s.TimeRemaining, ?_⟩⟩
        rw [fe]
        show (((((s.Score.ScoreEvent "rightLetter").ScoreEvent "wordBonus").ScoreEvent
          "messageBonus")).AddTimeBonus s.TimeRemaining).CurrentScore = _
        rw [ta2, ma, wa, ra, wb, rb]
        simp only [if_true] <;> ring
      case neg =>
        rw [if_neg hTE]
        obtain ⟨fa, fb, fc, fd, fe⟩ := endState_fields _
        refine ⟨by rw [fa], by rw [fd], Or.inr ⟨by rw [fc], by rw [fb]⟩,
          ⟨true, true, 0, ?_⟩⟩
        rw [fe]
        show ((((s.Score.ScoreEvent "rightLetter").ScoreEvent "wordBonus").ScoreEvent
          "messageBonus")).CurrentScore = _
        rw [ma, wa, ra, wb, rb]
        simp only [if_true] <;> ring
    case neg =>
      rw [if_neg hwin]
      obtain ⟨ea, eb, ec, ed, ee, ef, eg⟩ := evaluating_fields
        { s with
          Mask := revealAt s.Secret s.Mask s.Pos
          Score := (s.Score.ScoreEvent "rightLetter").ScoreEvent "wordBonus"
          Textarea := revealAt s.Secret s.Mask s.Pos
          Pos := s.Pos + 1 }
      refine ⟨by rw [ea], by rw [ed], Or.inl (by rw [eb]), ?_⟩
      rcases eg with hsc | hsc
      · refine ⟨true, false, 0, ?_⟩
        rw [hsc]
        show ((s.Score.ScoreEvent "rightLetter").ScoreEvent "wordBonus").CurrentScore = _
        rw [wa, ra, rb]
        simp only [if_true, Bool.false_eq_true, if_false] <;> ring
      · refine ⟨true, true, 0, ?_⟩
        rw [hsc]
        show ((s.Score.ScoreEvent "rightLetter").ScoreEvent "wordBonus").CurrentScore +
          tableGet (((s.Score.ScoreEvent "rightLetter").ScoreEvent
            "wordBonus")).scoreTable "messageBonus" = _
        rw [wa, ra, wb, rb]
        simp only [if_true] <;> ring
  case neg =>
    rw [if_neg hgw]
    by_cases hwin : (revealAt s.Secret s.Mask s.Pos == s.Secret) = true
    case pos =>
      rw [if_pos hwin]
      obtain ⟨ma, mb, mc, md, me⟩ := scoreEvent_fields (s.Score.ScoreEvent "rightLetter")
        "messageBonus"
      by_cases hTE : s.TimerEnabled = true
      case pos =>
        rw [if_pos hTE]
        obtain ⟨ta2, tb2, tc2, td2, te2⟩ := addTimeBonus_fields
          ((s.Score.ScoreEvent "rightLetter").ScoreEvent "messageBonus") s.TimeRemaining
        obtain ⟨fa, fb, fc, fd, fe⟩ := endState_fields _
        refine ⟨by rw [fa], by rw [fd], Or.inr ⟨by rw [fc], by rw [fb]⟩,
          ⟨false, true, s.TimeRemaining, ?_⟩⟩
        rw [fe]
        show ((((s.Score.ScoreEvent "rightLetter").ScoreEvent
          "messageBonus")).AddTimeBonus s.TimeRemaining).CurrentScore = _
        rw [ta2, ma, ra, rb]
        simp only [if_true, Bool.false_eq_true, if_false] <;> ring
      case neg =>
        rw [if_neg hTE]
        obtain ⟨fa, fb, fc, fd, fe⟩ := endState_fields _
        refine ⟨by rw [fa], by rw [fd], Or.inr ⟨by rw [fc], by rw [fb]⟩,
          ⟨false, true, 0, ?_⟩⟩
        rw [fe]
        show (((s.Score.ScoreEvent "rightLetter").ScoreEvent
          "messageBonus")).CurrentScore = _
        rw [ma, ra, rb]
        simp only [if_true, Bool.false_eq_true, if_false] <;> ring
    case neg =>
      rw [if_neg hwin]
      obtain ⟨ea, eb, ec, ed, ee, ef, eg⟩ := evaluating_fields
        { s with
          Mask := revealAt s.Secret s.Mask s.Pos
          Score := s.Score.ScoreEvent "rightLetter"
          Textarea := revealAt s.Secret s.Mask s.Pos
          Pos := s.Pos + 1 }
      refine ⟨by rw [ea], by rw [ed], Or.inl (by rw [eb]), ?_⟩
      rcases eg with hsc | hsc
      · refine ⟨false, false, 0, ?_⟩
        rw [hsc]
        show (s.Score.ScoreEvent "rightLetter").CurrentScore = _
        rw [ra]
        simp only [Bool.false_eq_true, if_false] <;> ring
      · refine ⟨false, true, 0, ?_⟩
        rw [hsc]
        show (s.Score.ScoreEvent "rightLetter").CurrentScore +
          tableGet ((s.Score.ScoreEvent "rightLetter")).scoreTable "messageBonus" = _
        rw [ra, rb]
        simp only [if_true, Bool.false_eq_true, if_false] <;> ring


/-- C7 as amended: whenever the input case-insensitively equals the
character at the (settled) cursor, processing it is a correctness check:
the mask is revealed at the cursor, the wrong-flag is cleared, the score
changes, and the cursor advances by one unless the match ends the game,
which is won without advancing.  In particular type-through never shadows a
correct match. -/
theorem c7_amended_priority (g : Game) (ch : List Char)
    (hw : g.State.Win = false) (hl : g.State.Loss = false)
    (hta : g.State.GotCorrectMessage = false)
    (hscore : 0 ≤ g.State.Score.CurrentScore)
    (htable : g.State.Score.scoreTable = getScoreTable)
    (hstable : skipCond g.State = false)
    (hpos : g.State.Pos < g.State.Secret.length)
    (hcorrect : g.State.IsCorrectLetter ch = true) :
    (g.HandleKeyPress ch).State.Mask = revealAt g.State.Secret g.State.Mask g.State.Pos ∧
    (g.HandleKeyPress ch).State.WrongLetter = false ∧
    (g.HandleKeyPress ch).State.Score.CurrentScore ≠ g.State.Score.CurrentScore ∧
    ((g.HandleKeyPress ch).State.Pos = g.State.Pos + 1 ∨
      ((g.HandleKeyPress ch).State.Win = true ∧
        (g.HandleKeyPress ch).State.Pos = g.State.Pos)) := by
  have hlen : ch.length = 1 := isCorrectLetter_length g.State ch hcorrect
  have hguard : ¬((g.State.Win || g.State.Loss) = true) := by rw [hw, hl]; simp
  have e1 : g.HandleKeyPress ch = ⟨({ g.State with CurrentChar := ch }).processChar⟩ := by
    unfold Game.HandleKeyPress
    rw [if_neg hguard, checkGameState_to_processChar g.State ch hta
      (notExit_of_length ch hlen) hscore (notReveal_of_length ch hlen)]
  have e2 : ({ g.State with CurrentChar := ch } : State).processChar =
      ({ g.State with
          CurrentChar := ch
          Textarea := g.State.Mask } : State).checkCorrectness :=
    processChar_check { g.State with CurrentChar := ch } hstable hpos (Or.inl hcorrect)
  have e3 : ({ g.State with
        CurrentChar := ch
        Textarea := g.State.Mask } : State).checkCorrectness =
      ({ g.State with
          CurrentChar := ch
          Textarea := g.State.Mask
          WrongLetter := false } : State).gotMatch :=
    checkCorrectness_match _ hcorrect
  have estate : (g.HandleKeyPress ch).State =
      ({ g.State with
          CurrentChar := ch
          Textarea := g.State.Mask
          WrongLetter := false } : State).gotMatch := by
    rw [e1]
    show ({ g.State with CurrentChar := ch } : State).processChar = _
    rw [e2, e3]
  obtain ⟨ga, gb, gc, gd⟩ := gotMatch_fields
    { g.State with
      CurrentChar := ch
      Textarea := g.State.Mask
      WrongLetter := false }
  rw [estate]
  refine ⟨by rw [ga], by rw [gb], ?_, gc⟩
  obtain ⟨b, w, tb, hscore2⟩ := gd
  rw [hscore2]
  show g.State.Score.CurrentScore + tableGet g.State.Score.scoreTable "rightLetter" +
      (if b then tableGet g.State.Score.scoreTable "wordBonus" else 0) +
      (if w then tableGet g.State.Score.scoreTable "messageBonus" else 0) + tb * 10 ≠
    g.State.Score.CurrentScore
  rw [htable, tableGet_rightLetter, tableGet_wordBonus, tableGet_messageBonus]
  cases b <;> cases w <;> simp <;> omega



/-- Concrete instance discharging the hypotheses of c2_amended_repenalizes:
the state after a, b, c, z on the secret "abcde", fed a second z. -/
theorem c2_amended_repenalizes_witness :
    (((mkTestGame "abcde" noModeOpts).runKeys ["a", "b", "c", "z"]).State.Win = false ∧
      ((mkTestGame "abcde" noModeOpts).runKeys ["a", "b", "c", "z"]).State.Loss = false ∧
      ((mkTestGame "abcde" noModeOpts).runKeys
          ["a", "b", "c", "z"]).State.WrongLetter = true ∧
      ((mkTestGame "abcde" noModeOpts).runKeys
          ["a", "b", "c", "z"]).State.GotCorrectMessage = false ∧
      0 ≤ ((mkTestGame "abcde" noModeOpts).runKeys
          ["a", "b", "c", "z"]).State.Score.CurrentScore ∧
      ((mkTestGame "abcde" noModeOpts).runKeys
          ["a", "b", "c", "z"]).State.Score.scoreTable = getScoreTable ∧
      skipCond ((mkTestGame "abcde" noModeOpts).runKeys
          ["a", "b", "c", "z"]).State = false ∧
      ((mkTestGame "abcde" noModeOpts).runKeys ["a", "b", "c", "z"]).State.Pos <
        ((mkTestGame "abcde" noModeOpts).runKeys
          ["a", "b", "c", "z"]).State.Secret.length ∧
      IsExitRequested "z".toList = false ∧
      IsRevealRequested "z".toList = false ∧
      ((mkTestGame "abcde" noModeOpts).runKeys
          ["a", "b", "c", "z"]).State.IsCorrectLetter "z".toList = false ∧
      typeThroughScan
        ((mkTestGame "abcde" noModeOpts).runKeys ["a", "b", "c", "z"]).State.Secret
        ((mkTestGame "abcde" noModeOpts).runKeys ["a", "b", "c", "z"]).State.Mask
        "z".toList
        ((mkTestGame "abcde" noModeOpts).runKeys ["a", "b", "c", "z"]).State.Pos =
        false ∧
      ShouldIgnore "z".toList = false ∧ ("z".toList == ['?']) = false) ∧
    ((((mkTestGame "abcde" noModeOpts).runKeys
          ["a", "b", "c", "z"]).HandleKeyPress "z".toList).State.Score.CurrentScore =
        ((mkTestGame "abcde" noModeOpts).runKeys
          ["a", "b", "c", "z"]).State.Score.CurrentScore - 50 ∧
      (((mkTestGame "abcde" noModeOpts).runKeys
          ["a", "b", "c", "z"]).HandleKeyPress "z".toList).State.Score.ErrorCount =
        ((mkTestGame "abcde" noModeOpts).runKeys
          ["a", "b", "c", "z"]).State.Score.ErrorCount + 1 ∧
      (((mkTestGame "abcde" noModeOpts).runKeys
          ["a", "b", "c", "z"]).HandleKeyPress "z".toList).State.WrongLetter = true ∧
      (((mkTestGame "abcde" noModeOpts).runKeys
          ["a", "b", "c", "z"]).HandleKeyPress "z".toList).State.Pos =
        ((mkTestGame "abcde" noModeOpts).runKeys ["a", "b", "c", "z"]).State.Pos) :=
  ⟨⟨by decide, by decide, by decide, by decide, by decide, by decide, by decide,
      by decide, by decide, by decide, by decide, by decide, by decide, by decide⟩,
    c2_amended_repenalizes _ _ (by decide) (by decide) (by decide) (by decide)
      (by decide) (by decide) (by decide) (by decide) (by decide) (by decide)
      (by decide) (by decide) (by decide) (by decide)⟩

/-- Concrete instance discharging the hypotheses of c7_amended_priority:
a fresh game on "abc" fed the correct letter a. -/
theorem c7_amended_priority_witness :
    ((mkTestGame "abc" noModeOpts).State.Win = false ∧
      (mkTestGame "abc" noModeOpts).State.Loss = false ∧
      (mkTestGame "abc" noModeOpts).State.GotCorrectMessage = false ∧
      0 ≤ (mkTestGame "abc" noModeOpts).State.Score.CurrentScore ∧
      (mkTestGame "abc" noModeOpts).State.Score.scoreTable = getScoreTable ∧
      skipCond (mkTestGame "abc" noModeOpts).State = false ∧
      (mkTestGame "abc" noModeOpts).State.Pos <
        (mkTestGame "abc" noModeOpts).State.Secret.length ∧
      (mkTestGame "abc" noModeOpts).State.IsCorrectLetter "a".toList = true) ∧
    (((mkTestGame "abc" noModeOpts).HandleKeyPress "a".toList).State.Mask =
        revealAt (mkTestGame "abc" noModeOpts).State.Secret
          (mkTestGame "abc" noModeOpts).State.Mask
          (mkTestGame "abc" noModeOpts).State.Pos ∧
      ((mkTestGame "abc" noModeOpts).HandleKeyPress "a".toList).State.WrongLetter =
        false ∧
      ((mkTestGame "abc" noModeOpts).HandleKeyPress
          "a".toList).State.Score.CurrentScore ≠
        (mkTestGame "abc" noModeOpts).State.Score.CurrentScore ∧
      (((mkTestGame "abc" noModeOpts).HandleKeyPress "a".toList).State.Pos =
          (mkTestGame "abc" noModeOpts).State.Pos + 1 ∨
        (((mkTestGame "abc" noModeOpts).HandleKeyPress "a".toList).State.Win = true ∧
          ((mkTestGame "abc" noModeOpts).HandleKeyPress "a".toList).State.Pos =
            (mkTestGame "abc" noModeOpts).State.Pos))) :=
  ⟨⟨by decide, by decide, by decide, by decide, by decide, by decide, by decide,
      by decide⟩,
    c7_amended_priority _ _ (by decide) (by decide) (by decide) (by decide)
      (by decide) (by decide) (by decide) (by decide)⟩

/-- Concrete instance discharging the hypotheses of c8_amended_type_through:
after a, b on the secret "abc", typing a again types through the revealed
run without any effect. -/
theorem c8_amended_type_through_witness :
    (((mkTestGame "abc" noModeOpts).runKeys ["a", "b"]).State.Win = false ∧
      ((mkTestGame "abc" noModeOpts).runKeys ["a", "b"]).State.Loss = false ∧
      ((mkTestGame "abc" noModeOpts).runKeys
          ["a", "b"]).State.GotCorrectMessage = false ∧
      0 ≤ ((mkTestGame "abc" noModeOpts).runKeys
          ["a", "b"]).State.Score.CurrentScore ∧
      skipCond ((mkTestGame "abc" noModeOpts).runKeys ["a", "b"]).State = false ∧
      ((mkTestGame "abc" noModeOpts).runKeys ["a", "b"]).State.Pos <
        ((mkTestGame "abc" noModeOpts).runKeys ["a", "b"]).State.Secret.length ∧
      precedingRunHit ((mkTestGame "abc" noModeOpts).runKeys ["a", "b"]).State
        "a".toList ∧
      ((mkTestGame "abc" noModeOpts).runKeys
          ["a", "b"]).State.IsCorrectLetter "a".toList = false) ∧
    ((((mkTestGame "abc" noModeOpts).runKeys
          ["a", "b"]).HandleKeyPress "a".toList).State.Score =
        ((mkTestGame "abc" noModeOpts).runKeys ["a", "b"]).State.Score ∧
      (((mkTestGame "abc" noModeOpts).runKeys
          ["a", "b"]).HandleKeyPress "a".toList).State.Pos =
        ((mkTestGame "abc" noModeOpts).runKeys ["a", "b"]).State.Pos ∧
      (((mkTestGame "abc" noModeOpts).runKeys
          ["a", "b"]).HandleKeyPress "a".toList).State.WrongLetter =
        ((mkTestGame "abc" noModeOpts).runKeys ["a", "b"]).State.WrongLetter ∧
      (((mkTestGame "abc" noModeOpts).runKeys
          ["a", "b"]).HandleKeyPress "a".toList).State.Mask =
        ((mkTestGame "abc" noModeOpts).runKeys ["a", "b"]).State.Mask ∧
      (((mkTestGame "abc" noModeOpts).runKeys
          ["a", "b"]).HandleKeyPress "a".toList).State.Win = false ∧
      (((mkTestGame "abc" noModeOpts).runKeys
          ["a", "b"]).HandleKeyPress "a".toList).State.Loss = false) := by
  have hrun : precedingRunHit
      ((mkTestGame "abc" noModeOpts).runKeys ["a", "b"]).State "a".toList := by
    refine ⟨0, by decide, ?_, by decide⟩
    intro j hj1 hj2
    have hp : ((mkTestGame "abc" noModeOpts).runKeys ["a", "b"]).State.Pos = 2 := by
      decide
    rw [hp] at hj2
    interval_cases j
    · exact ⟨by decide, by decide⟩
    · exact ⟨by decide, by decide⟩
  exact ⟨⟨by decide, by decide, by decide, by decide, by decide, by decide, hrun,
      by decide⟩,
    c8_amended_type_through _ _ (by decide) (by decide) (by decide) (by decide)
      (by decide) (by decide) hrun (by decide)⟩


theorem maskEvolvesM_refl (secret m : List Char) : maskEvolvesM secret m m :=
  ⟨rfl, fun _ => Or.inl rfl⟩

theorem maskEvolvesM_trans {secret m1 m2 m3 : List Char}
    (h1 : maskEvolvesM secret m1 m2) (h2 : maskEvolvesM secret m2 m3) :
    maskEvolvesM secret m1 m3 := by
  refine ⟨h2.1.trans h1.1, fun p => ?_⟩
  rcases h2.2 p with h | h
  · rw [h]; exact h1.2 p
  · exact Or.inr h

theorem maskEvolvesM_revealAt (secret m : List Char) (i : Nat) :
    maskEvolvesM secret m (revealAt secret m i) := by
  unfold revealAt
  refine ⟨List.length_set m i _, fun p => ?_⟩
  by_cases hip : i = p
  · subst hip
    by_cases hlt : i < m.length
    · right
      rw [getD_set_self hlt]
    · left
      rw [List.set_eq_of_length_le (not_lt.mp hlt)]
  · left
    exact getD_set_ne hip

theorem maskEvolvesM_revealIdxs (secret : List Char) :
    ∀ (idxs : List Nat) (m : List Char), maskEvolvesM secret m (revealIdxs secret m idxs) := by
  intro idxs
  induction idxs with
  | nil => intro m; exact maskEvolvesM_refl secret m
  | cons i rest ih =>
    intro m
    exact maskEvolvesM_trans (maskEvolvesM_revealAt secret m i) (ih (revealAt secret m i))

theorem maskEvolvesM_revealFirstAux (secret : List Char) :
    ∀ (rest m : List Char) (i : Nat) (inWord : Bool),
      maskEvolvesM secret m (revealFirstAux secret rest m i inWord) := by
  intro rest
  induction rest with
  | nil => intro m i inWord; exact maskEvolvesM_refl secret m
  | cons c cs ih =>
    intro m i inWord
    rw [revealFirstAux]
    by_cases hc : isAlnum c = true
    · rw [if_pos hc]
      by_cases hw : inWord = true
      · rw [if_pos hw]
        exact ih m (i + 1) true
      · rw [if_neg hw]
        exact maskEvolvesM_trans (maskEvolvesM_revealAt secret m i)
          (ih (revealAt secret m i) (i + 1) true)
    · rw [if_neg hc]
      exact ih m (i + 1) false

theorem maskEvolvesM_spanFold (secret : List Char) :
    ∀ (spans : List (Nat × Nat)) (m : List Char),
      maskEvolvesM secret m
        (spans.foldl (fun m2 sp => revealIdxs secret m2 (List.range' sp.1 (sp.2 - sp.1))) m) := by
  intro spans
  induction spans with
  | nil => intro m; exact maskEvolvesM_refl secret m
  | cons sp rest ih =>
    intro m
    exact maskEvolvesM_trans (maskEvolvesM_revealIdxs secret _ m) (ih _)

theorem maskInv_of_evolves {s t : State} (hinv : MaskInv s) (hev : MaskEvolves s t) :
    MaskInv t := by
  obtain ⟨hsec, hlen, hpt⟩ := hev
  refine ⟨by rw [hlen, hsec]; exact hinv.1, fun p => ?_⟩
  rcases hpt p with h | h
  · rw [h, hsec]
    exact hinv.2 p
  · right
    rw [h, hsec]

theorem maskEvolves_refl (s : State) : MaskEvolves s s :=
  ⟨rfl, maskEvolvesM_refl _ _⟩

theorem maskEvolves_trans {s t u : State} (h1 : MaskEvolves s t) (h2 : MaskEvolves t u) :
    MaskEvolves s u := by
  have h2m := h2.2
  rw [h1.1] at h2m
  exact ⟨h2.1.trans h1.1, maskEvolvesM_trans h1.2 h2m⟩

theorem maskEvolves_of_same {s t : State} (h1 : t.Secret = s.Secret)
    (h2 : t.Mask = s.Mask) : MaskEvolves s t :=
  ⟨h1, by rw [h2]; exact maskEvolvesM_refl _ _⟩


theorem maskEvolves_evaluating (s : State) : MaskEvolves s s.evaluating := by
  obtain ⟨ea, _, ec, _⟩ := evaluating_fields s
  exact maskEvolves_of_same ec ea

theorem maskEvolves_noMatch (s : State) : MaskEvolves s s.noMatch := by
  unfold State.noMatch State.scoreEvent
  obtain ⟨ea, _, ec, _⟩ := evaluating_fields
    { s with
      WrongLetter := true
      Score := s.Score.ScoreEvent "wrongLetter"
      Textarea := s.Mask }
  exact maskEvolves_of_same ec ea

theorem gotMatch_mask_secret (s : State) :
    (s.gotMatch).Mask = revealAt s.Secret s.Mask s.Pos ∧ (s.gotMatch).Secret = s.Secret := by
  simp only [State.gotMatch, State.scoreEvent]
  by_cases hgw : ({ s with
      Mask := revealAt s.Secret s.Mask s.Pos
      Score := s.Score.ScoreEvent "rightLetter" } : State).GotCompletedWord = true
  case pos =>
    rw [if_pos hgw]
    by_cases hwin : (revealAt s.Secret s.Mask s.Pos == s.Secret) = true
    case pos =>
      rw [if_pos hwin]
      by_cases hTE : s.TimerEnabled = true
      case pos =>
        rw [if_pos hTE]
        exact ⟨(endState_fields _).1, rfl⟩
      case neg =>
        rw [if_neg hTE]
        exact ⟨(endState_fields _).1, rfl⟩
    case neg =>
      rw [if_neg hwin]
      obtain ⟨ea, _, ec, _⟩ := evaluating_fields
        { s with
          Mask := revealAt s.Secret s.Mask s.Pos
          Score := (s.Score.ScoreEvent "rightLetter").ScoreEvent "wordBonus"
          Textarea := revealAt s.Secret s.Mask s.Pos
          Pos := s.Pos + 1 }
      exact ⟨by rw [ea], by rw [ec]⟩
  case neg =>
    rw [if_neg hgw]
    by_cases hwin : (revealAt s.Secret s.Mask s.Pos == s.Secret) = true
    case pos =>
      rw [if_pos hwin]
      by_cases hTE : s.TimerEnabled = true
      case pos =>
        rw [if_pos hTE]
        exact ⟨(endState_fields _).1, rfl⟩
      case neg =>
        rw [if_neg hTE]
        exact ⟨(endState_fields _).1, rfl⟩
    case neg =>
      rw [if_neg hwin]
      obtain ⟨ea, _, ec, _⟩ := evaluating_fields
        { s with
          Mask := revealAt s.Secret s.Mask s.Pos
          Score := s.Score.ScoreEvent "rightLetter"
          Textarea := revealAt s.Secret s.Mask s.Pos
          Pos := s.Pos + 1 }
      exact ⟨by rw [ea], by rw [ec]⟩

theorem maskEvolves_gotMatch (s : State) : MaskEvolves s s.gotMatch := by
  obtain ⟨hm, hs⟩ := gotMatch_mask_secret s
  exact ⟨hs, by rw [hm]; exact maskEvolvesM_revealAt s.Secret s.Mask s.Pos⟩

theorem maskEvolves_checkCorrectness (s : State) : MaskEvolves s s.checkCorrectness := by
  by_cases hc : s.IsCorrectLetter s.CurrentChar = true
  · rw [checkCorrectness_match s hc]
    obtain ⟨hm, hs⟩ := gotMatch_mask_secret { s with WrongLetter := false }
    exact ⟨hs, by rw [hm]; exact maskEvolvesM_revealAt s.Secret s.Mask s.Pos⟩
  · rw [checkCorrectness_mismatch s (by revert hc; cases s.IsCorrectLetter s.CurrentChar <;> simp)]
    exact maskEvolves_noMatch s

theorem maskEvolves_revealNextChar (s : State) : MaskEvolves s s.revealNextChar := by
  simp only [State.revealNextChar, State.scoreEvent]
  by_cases hc : (scanHiddenFuel s.Secret s.Mask (s.Secret.length - s.Pos) s.Pos <
        s.Secret.length &&
      (s.Mask.getD (scanHiddenFuel s.Secret s.Mask (s.Secret.length - s.Pos) s.Pos) '_' ==
        '_')) = true
  case pos =>
    rw [if_pos hc]
    obtain ⟨ea, _, ec, _⟩ := evaluating_fields
      { s with
        Mask := revealAt s.Secret s.Mask
          (scanHiddenFuel s.Secret s.Mask (s.Secret.length - s.Pos) s.Pos)
        Score := s.Score.ScoreEvent "hint"
        Textarea := revealAt s.Secret s.Mask
          (scanHiddenFuel s.Secret s.Mask (s.Secret.length - s.Pos) s.Pos)
        Pos := s.Pos + 1 }
    exact ⟨by rw [ec], by rw [ea]; exact maskEvolvesM_revealAt s.Secret s.Mask _⟩
  case neg =>
    rw [if_neg hc]
    obtain ⟨ea, _, ec, _⟩ := evaluating_fields
      { s with Textarea := s.Mask, Pos := s.Pos + 1 }
    exact maskEvolves_of_same ec ea

theorem maskEvolves_skipBody (s : State) : MaskEvolves s (skipBody s) := by
  unfold skipBody
  refine ⟨rfl, ?_⟩
  by_cases hb : (s.Mask.getD s.Pos '_' == '_') = true
  · rw [if_pos hb]
    exact maskEvolvesM_revealAt s.Secret s.Mask s.Pos
  · rw [if_neg hb]
    exact maskEvolvesM_refl _ _

theorem maskEvolves_skipRevealedFuel :
    ∀ (f : Nat) (s : State), MaskEvolves s (skipRevealedFuel f s) := by
  intro f
  induction f with
  | zero => intro s; exact maskEvolves_refl s
  | succ f ih =>
    intro s
    rw [skipRevealedFuel]
    by_cases hc : skipCond s = true
    · rw [if_pos hc]
      exact maskEvolves_trans (maskEvolves_skipBody s) (ih (skipBody s))
    · rw [if_neg hc]
      exact maskEvolves_refl s

theorem maskEvolves_skipRevealed (s : State) : MaskEvolves s s.SkipRevealed :=
  maskEvolves_skipRevealedFuel _ s


theorem maskEvolves_processChar (s : State) : MaskEvolves s s.processChar := by
  have hts : MaskEvolves s ({ s.SkipRevealed with Textarea := s.SkipRevealed.Mask } : State) :=
    maskEvolves_trans (maskEvolves_skipRevealed s) (maskEvolves_of_same rfl rfl)
  simp only [State.processChar, State.scoreEvent]
  set t : State := { s.SkipRevealed with Textarea := s.SkipRevealed.Mask } with hT
  by_cases h1 : t.Secret.length ≤ t.Pos
  · rw [if_pos h1]
    by_cases h2 : (t.Mask == t.Secret) = true
    · rw [if_pos h2]
      by_cases hTE : t.TimerEnabled = true
      · rw [if_pos hTE]
        exact maskEvolves_trans hts (maskEvolves_of_same rfl rfl)
      · rw [if_neg hTE]
        exact maskEvolves_trans hts (maskEvolves_of_same rfl rfl)
    · rw [if_neg h2]
      exact maskEvolves_trans hts (maskEvolves_evaluating t)
  · rw [if_neg h1]
    by_cases h3 : t.IsCorrectLetter t.CurrentChar = true
    · rw [if_pos h3]
      exact maskEvolves_trans hts (maskEvolves_checkCorrectness t)
    · rw [if_neg h3]
      by_cases h4 : typeThroughScan t.Secret t.Mask t.CurrentChar t.Pos = true
      · rw [if_pos h4]
        exact maskEvolves_trans hts (maskEvolves_evaluating t)
      · rw [if_neg h4]
        by_cases h5 : ShouldIgnore t.CurrentChar = true
        · rw [if_pos h5]
          exact maskEvolves_trans hts (maskEvolves_evaluating t)
        · rw [if_neg h5]
          by_cases h6 : (t.CurrentChar == ['?']) = true
          · rw [if_pos h6]
            exact maskEvolves_trans hts (maskEvolves_revealNextChar t)
          · rw [if_neg h6]
            exact maskEvolves_trans hts (maskEvolves_checkCorrectness t)

theorem maskEvolves_revealingAll (s : State) (hinv : MaskInv s) :
    MaskEvolves s s.revealingAll := by
  unfold State.revealingAll State.endState
  refine ⟨rfl, ⟨?_, fun p => Or.inr rfl⟩⟩
  exact hinv.1.symm

theorem maskEvolves_checkGameState (s : State) (ch : List Char) (hinv : MaskInv s) :
    MaskEvolves s (s.checkGameState ch) := by
  have hinv2 : MaskInv ({ s with CurrentChar := ch } : State) := hinv
  simp only [State.checkGameState]
  by_cases h1 : ({ s with CurrentChar := ch } : State).GotCorrectMessage = true
  · rw [if_pos h1]
    exact maskEvolves_of_same rfl rfl
  · rw [if_neg h1]
    by_cases h2 : IsExitRequested ch = true
    · rw [if_pos h2]
      exact maskEvolves_of_same rfl rfl
    · rw [if_neg h2]
      by_cases h3 : ({ s with CurrentChar := ch } : State).Score.CurrentScore < 0
      · rw [if_pos h3]
        exact maskEvolves_of_same rfl rfl
      · rw [if_neg h3]
        by_cases h4 : IsRevealRequested ch = true
        · rw [if_pos h4]
          exact maskEvolves_revealingAll { s with CurrentChar := ch } hinv2
        · rw [if_neg h4]
          exact maskEvolves_processChar { s with CurrentChar := ch }

theorem maskEvolves_timeCheck (s : State) : MaskEvolves s s.timeCheck := by
  simp only [State.timeCheck]
  by_cases h1 : ({ s with TimeRemaining := s.TimeRemaining - 1 } : State).TimeRemaining ≤ 0
  · rw [if_pos h1]
    exact maskEvolves_of_same rfl rfl
  · rw [if_neg h1]
    exact maskEvolves_of_same rfl rfl

theorem maskEvolves_handleEvent (g : Game) (ev : GEvent) (hinv : MaskInv g.State) :
    MaskEvolves g.State (g.handleEvent ev).State := by
  cases ev with
  | key ch =>
    simp only [Game.handleEvent, Game.HandleKeyPress]
    by_cases h : (g.State.Win || g.State.Loss) = true
    · rw [if_pos h]
      exact maskEvolves_refl g.State
    · rw [if_neg h]
      exact maskEvolves_checkGameState g.State ch hinv
  | tick =>
    simp only [Game.handleEvent, Game.HandleTick]
    by_cases h : (g.State.Win || g.State.Loss || !g.State.TimerEnabled) = true
    · rw [if_pos h]
      exact maskEvolves_refl g.State
    · rw [if_neg h]
      exact maskEvolves_timeCheck g.State

theorem run_maskInv_evolves :
    ∀ (evs : List GEvent) (g : Game), MaskInv g.State →
      MaskInv ((g.run evs).State) ∧ MaskEvolves g.State ((g.run evs).State) := by
  intro evs
  induction evs with
  | nil => intro g hinv; exact ⟨hinv, maskEvolves_refl g.State⟩
  | cons ev rest ih =>
    intro g hinv
    have hstep := maskEvolves_handleEvent g ev hinv
    have hinv2 := maskInv_of_evolves hinv hstep
    obtain ⟨ha, hb⟩ := ih (g.handleEvent ev) hinv2
    exact ⟨ha, maskEvolves_trans hstep hb⟩


theorem initMask_inv (s : State) : MaskInv s.InitMask := by
  unfold State.InitMask MaskInv
  constructor
  · simp [List.enum_length]
  · intro p
    by_cases hp : p < s.Secret.length
    · rw [List.getD_eq_getElem?_getD, List.getElem?_map, List.getElem?_enum,
        List.getElem?_eq_getElem hp]
      have hsec : s.Secret.getD p '_' = s.Secret[p] := by
        rw [List.getD_eq_getElem?_getD, List.getElem?_eq_getElem hp]
        rfl
      by_cases hcond :
          (ShouldIgnore [s.Secret[p]] || s.BracketedPositions.contains p) = true
      · right
        rw [hsec]
        show (if (ShouldIgnore [s.Secret[p]] || s.BracketedPositions.contains p) = true
            then s.Secret[p] else '_') = s.Secret[p]
        rw [if_pos hcond]
      · left
        show (if (ShouldIgnore [s.Secret[p]] || s.BracketedPositions.contains p) = true
            then s.Secret[p] else '_') = '_'
        rw [if_neg hcond]
    · left
      apply getD_of_length_le
      simp only [List.length_map, List.enum_length]
      exact not_lt.mp hp

theorem maskEvolves_revealFirstLetters (s : State) : MaskEvolves s s.RevealFirstLetters :=
  ⟨rfl, maskEvolvesM_revealFirstAux s.Secret s.Secret s.Mask 0 false⟩

theorem maskEvolves_revealRandomLetters (s : State) (perm : List Nat → List Nat)
    (n : Int) : MaskEvolves s (s.RevealRandomLetters perm n) :=
  ⟨rfl, maskEvolvesM_revealIdxs s.Secret _ s.Mask⟩

theorem maskEvolves_revealRandomWords (s : State)
    (perm : List (Nat × Nat) → List (Nat × Nat)) (n : Int) :
    MaskEvolves s (s.RevealRandomWords perm n) :=
  ⟨rfl, maskEvolvesM_spanFold s.Secret _ s.Mask⟩

theorem maskEvolves_applyGameModes (s : State) (opts : GameOptions)
    (permL : List Nat → List Nat) (permW : List (Nat × Nat) → List (Nat × Nat)) :
    MaskEvolves s (s.ApplyGameModes opts permL permW) := by
  have hif1 : ∀ u : State, MaskEvolves u (if opts.FirstLetter then u.RevealFirstLetters else u) := by
    intro u
    by_cases h : opts.FirstLetter = true
    · rw [if_pos h]; exact maskEvolves_revealFirstLetters u
    · rw [if_neg h]; exact maskEvolves_refl u
  have hif2 : ∀ u : State,
      MaskEvolves u (if 0 < opts.NRandom then u.RevealRandomLetters permL opts.NRandom else u) := by
    intro u
    by_cases h : 0 < opts.NRandom
    · rw [if_pos h]; exact maskEvolves_revealRandomLetters u permL opts.NRandom
    · rw [if_neg h]; exact maskEvolves_refl u
  have hif3 : ∀ u : State,
      MaskEvolves u (if 0 < opts.NWords then u.RevealRandomWords permW opts.NWords else u) := by
    intro u
    by_cases h : 0 < opts.NWords
    · rw [if_pos h]; exact maskEvolves_revealRandomWords u permW opts.NWords
    · rw [if_neg h]; exact maskEvolves_refl u
  exact maskEvolves_trans (hif1 s)
    (maskEvolves_trans (hif2 _)
      (maskEvolves_trans (hif3 _) (maskEvolves_skipRevealed _)))

theorem init_maskInv (g : Game) (permL : List Nat → List Nat)
    (permW : List (Nat × Nat) → List (Nat × Nat)) :
    MaskInv (g.Init permL permW).State := by
  rw [init_state_eq]
  exact maskInv_of_evolves (initMask_inv g.State.SetBracketedPositions)
    (maskEvolves_applyGameModes g.State.SetBracketedPositions.InitMask
      g.State.Options permL permW)


theorem run_append (g : Game) (a b : List GEvent) : g.run (a ++ b) = (g.run a).run b :=
  List.foldl_append _ _ _ _

/-- C1: for every secret, options, shuffle choices, initial scoring and
textarea, and every input sequence, the state after any prefix of the
inputs satisfies the mask invariant (each mask position is the placeholder
or the secret character, and the mask has the secret's length), and a mask
position that holds a real character at one point of play still holds that
same character at every later point. -/
theorem c1_mask_invariant (content : List Char) (cardWidth : Nat) (ta : List Char)
    (sc : Scoring) (opts : GameOptions) (permL : List Nat → List Nat)
    (permW : List (Nat × Nat) → List (Nat × Nat)) (inputs : List GEvent)
    (i j : Nat) (hij : i ≤ j) (p : Nat) :
    MaskInv (((NewGame content cardWidth ta sc opts).Init permL permW).run
      (inputs.take i)).State ∧
    ((((NewGame content cardWidth ta sc opts).Init permL permW).run
        (inputs.take i)).State.Mask.getD p '_' ≠ '_' →
      (((NewGame content cardWidth ta sc opts).Init permL permW).run
        (inputs.take j)).State.Mask.getD p '_' =
      (((NewGame content cardWidth ta sc opts).Init permL permW).run
        (inputs.take i)).State.Mask.getD p '_') := by
  have hinv0 : MaskInv ((NewGame content cardWidth ta sc opts).Init permL permW).State :=
    init_maskInv _ permL permW
  obtain ⟨hinvi, _⟩ := run_maskInv_evolves (inputs.take i)
    ((NewGame content cardWidth ta sc opts).Init permL permW) hinv0
  refine ⟨hinvi, fun hnb => ?_⟩
  have hjeq : inputs.take j = inputs.take i ++ (inputs.drop i).take (j - i) := by
    conv_lhs => rw [show j = i + (j - i) from by omega]
    rw [List.take_add]
  rw [hjeq, run_append]
  obtain ⟨_, hev⟩ := run_maskInv_evolves ((inputs.drop i).take (j - i))
    (((NewGame content cardWidth ta sc opts).Init permL permW).run (inputs.take i)) hinvi
  rcases hev.2.2 p with h | h
  · exact h
  · rw [h]
    rcases hinvi.2 p with hblank | hreal
    · exact absurd hblank hnb
    · exact hreal.symm

/-- Concrete instance discharging the hypothesis of c1_mask_invariant. -/
theorem c1_mask_invariant_witness :
    (1 : Nat) ≤ 2 ∧
    (MaskInv (((NewGame "Hi".toList 20 []
        (InitScoring "Hi".toList "Title" emptyScoreStorage constHash "now")
        noModeOpts).Init id id).run ([GEvent.key "h".toList, GEvent.tick].take 1)).State ∧
      ((((NewGame "Hi".toList 20 []
          (InitScoring "Hi".toList "Title" emptyScoreStorage constHash "now")
          noModeOpts).Init id id).run
            ([GEvent.key "h".toList, GEvent.tick].take 1)).State.Mask.getD 0 '_' ≠ '_' →
        (((NewGame "Hi".toList 20 []
          (InitScoring "Hi".toList "Title" emptyScoreStorage constHash "now")
          noModeOpts).Init id id).run
            ([GEvent.key "h".toList, GEvent.tick].take 2)).State.Mask.getD 0 '_' =
        (((NewGame "Hi".toList 20 []
          (InitScoring "Hi".toList "Title" emptyScoreStorage constHash "now")
          noModeOpts).Init id id).run
            ([GEvent.key "h".toList, GEvent.tick].take 1)).State.Mask.getD 0 '_')) :=
  ⟨by decide,
    c1_mask_invariant "Hi".toList 20 []
      (InitScoring "Hi".toList "Title" emptyScoreStorage constHash "now") noModeOpts
      id id [GEvent.key "h".toList, GEvent.tick] 1 2 (by decide) 0⟩

end GoMem
